import Mathlib

/-!
# Verification of the cinema_paris showtime-aggregation pipeline

This file gives a shallow embedding, in Lean 4, of the core logic of the
cinema_paris repository:

* `app/models/models.py` — the `Theater` pagination loop (`get_showtimes`),
  the movie parser (`parse_movie`, `parse_cast`, `parse_director`,
  `decode_movie_id`) and the runtime-string parser (`_parse_runtime`);
* `app/services/cinema_service.py` — the aggregation fold
  (`get_all_showtimes`) and the weekday/month translators;
* `app/api/routes.py` — the `home` route's delta clamping and day selector.

Python values coming from JSON are modelled by the inductive type `JVal`;
Python exceptions are modelled with `Except PyErr`.  Python string
operations used by the code (`split` with a separator, whitespace `split`,
`strip` inside `int`, substring membership) are implemented at the
character-list level so that their properties can be proved.  Network
access is modelled by an explicit environment mapping
(theater id, date string, page) to an HTTP response.
-/

set_option maxHeartbeats 1000000

/-- Python exceptions relevant to the embedded code. -/
inductive PyErr where
  | keyError (key : String)
  | typeError (msg : String)
  | valueError (msg : String)
  | indexError
  | attributeError (msg : String)
  | exc (msg : String)
  | outOfFuel
deriving DecidableEq, Repr

/-- A JSON-like Python value (`dict`s are insertion-ordered association
lists, as in Python 3.7+). -/
inductive JVal where
  | null
  | bool (b : Bool)
  | num (n : Int)
  | str (s : String)
  | arr (items : List JVal)
  | obj (fields : List (String × JVal))

/-- First binding of a key in a Python dict (keys are unique in dicts
built by `json.loads`). -/
def jLookup : List (String × JVal) → String → Option JVal
  | [], _ => none
  | (k, v) :: rest, key => if k = key then some v else jLookup rest key

/-- Python `d.get(key, default)`: an `AttributeError` on non-dicts. -/
def pyGet (o : JVal) (key : String) (default : JVal) : Except PyErr JVal :=
  match o with
  | .obj fields => .ok ((jLookup fields key).getD default)
  | _ => .error (.attributeError key)

/-- Python `d[key]`: `KeyError` when missing, `TypeError` on non-dicts. -/
def pyGetItem (o : JVal) (key : String) : Except PyErr JVal :=
  match o with
  | .obj fields =>
    match jLookup fields key with
    | some v => .ok v
    | none => .error (.keyError key)
  | _ => .error (.typeError "object is not subscriptable")

/-- Using a JSON value as a Python list. -/
def asList : JVal → Except PyErr (List JVal)
  | .arr items => .ok items
  | _ => .error (.typeError "object is not a list")

/-- Using a JSON value where a `str` is required (pydantic field
validation). -/
def asStr : JVal → Except PyErr String
  | .str s => .ok s
  | _ => .error (.typeError "object is not a str")

/-- Python truthiness of a JSON value. -/
def pyTruthy : JVal → Bool
  | .null => false
  | .bool b => b
  | .num n => n != 0
  | .str s => s != ""
  | .arr items => !items.isEmpty
  | .obj fields => !fields.isEmpty

/-- Python `str(x)` for scalar JSON values as used in f-strings.  The
rendering of lists/dicts is abbreviated; the code under verification only
ever formats scalars. -/
def pyStrOf : JVal → String
  | .null => "None"
  | .bool true => "True"
  | .bool false => "False"
  | .num n => toString n
  | .str s => s
  | .arr _ => "[...]"
  | .obj _ => "{...}"

/-! ## Character-level Python string operations -/

/-- Does the list start with the given pattern? -/
def listStartsWith : List Char → List Char → Bool
  | _, [] => true
  | [], _ :: _ => false
  | c :: cs, p :: ps => c == p && listStartsWith cs ps

/-- Python `sub in s` (substring containment) for a non-empty pattern. -/
def containsSeq (sep : List Char) : List Char → Bool
  | [] => sep.isEmpty
  | c :: cs => listStartsWith (c :: cs) sep || containsSeq sep cs

/-- Worker for Python `s.split(sep)` with a non-empty separator.
`cur` is the current piece, reversed; the fuel is an upper bound on the
number of characters still to be consumed. -/
def splitSepAux (sep : List Char) : Nat → List Char → List Char → List (List Char)
  | 0, cur, _ => [cur.reverse]
  | _ + 1, cur, [] => [cur.reverse]
  | fuel + 1, cur, c :: cs =>
    if listStartsWith (c :: cs) sep then
      cur.reverse :: splitSepAux sep fuel [] (cs.drop (sep.length - 1))
    else
      splitSepAux sep fuel (c :: cur) cs

/-- Python `s.split(sep)` for a non-empty separator `sep`. -/
def pySplit (s sep : String) : List String :=
  (splitSepAux sep.data (s.data.length + 1) [] s.data).map String.mk

/-- Python `sub in s`. -/
def hasSub (s sub : String) : Bool := containsSeq sub.data s.data

/-- Worker for Python `s.split()` (split on whitespace runs, dropping
empty pieces). -/
def pyWordsAux : Nat → List Char → List (List Char)
  | 0, _ => []
  | fuel + 1, cs =>
    match cs.dropWhile Char.isWhitespace with
    | [] => []
    | c :: rest =>
      (c :: rest.takeWhile (fun d => !d.isWhitespace)) ::
        pyWordsAux fuel (rest.dropWhile (fun d => !d.isWhitespace))

/-- Python `s.split()` with no argument. -/
def pyWords (s : String) : List String :=
  (pyWordsAux (s.data.length + 1) s.data).map String.mk

/-- Python `s.strip()` on character lists (as performed by `int`). -/
def pyStrip (cs : List Char) : List Char :=
  ((cs.dropWhile Char.isWhitespace).reverse.dropWhile Char.isWhitespace).reverse

/-- Numeric value of a list of decimal digits. -/
def digitsToNat (ds : List Char) : Nat :=
  ds.foldl (fun a c => a * 10 + (c.toNat - 48)) 0

/-- Python `int(s)` after whitespace stripping: an optional sign followed
by at least one decimal digit; everything else raises `ValueError`. -/
def pyintChars (cs : List Char) : Except PyErr Int :=
  match cs with
  | [] => .error (.valueError "")
  | c :: ds =>
    if c = '-' then
      if !ds.isEmpty && ds.all Char.isDigit then .ok (-(digitsToNat ds : Int))
      else .error (.valueError (String.mk cs))
    else if c = '+' then
      if !ds.isEmpty && ds.all Char.isDigit then .ok (digitsToNat ds)
      else .error (.valueError (String.mk cs))
    else
      if (c :: ds).all Char.isDigit then .ok (digitsToNat (c :: ds))
      else .error (.valueError (String.mk cs))

/-- Python `int(s)` on a string. -/
def pyint (s : String) : Except PyErr Int := pyintChars (pyStrip s.data)

/-- Python `int(x)` on a JSON value. -/
def pyIntOf : JVal → Except PyErr Int
  | .num n => .ok n
  | .bool b => .ok (if b then 1 else 0)
  | .str s => pyint s
  | _ => .error (.typeError "int() argument")

/-! ## The runtime-string parser (`Theater._parse_runtime`) -/

/-- `Theater._parse_runtime` from `app/models/models.py`:

```python
if runtime_str is None:
    return 0
hours, minutes = 0, 0
if "h" in runtime_str:
    hours = int(runtime_str.split("h")[0])
if "min" in runtime_str:
    minutes = int(runtime_str.split("min")[0].split()[-1])
return hours * 60 + minutes
```
-/
def _parse_runtime : Option String → Except PyErr Int
  | none => .ok 0
  | some runtime_str => do
    let hours ←
      if hasSub runtime_str "h" then pyint ((pySplit runtime_str "h").headD "")
      else pure 0
    let minutes ←
      if hasSub runtime_str "min" then
        match (pyWords ((pySplit runtime_str "min").headD "")).getLast? with
        | some w => pyint w
        | none => Except.error PyErr.indexError
      else pure 0
    pure (hours * 60 + minutes)

/-! ## Base64 and UTF-8 decoding (for `Theater.decode_movie_id`) -/

/-- Value of a standard base64 alphabet character. -/
def b64CharVal (c : Char) : Option Nat :=
  if 'A' ≤ c ∧ c ≤ 'Z' then some (c.toNat - 65)
  else if 'a' ≤ c ∧ c ≤ 'z' then some (c.toNat - 97 + 26)
  else if '0' ≤ c ∧ c ≤ '9' then some (c.toNat - 48 + 52)
  else if c = '+' then some 62
  else if c = '/' then some 63
  else none

/-- Emit the complete bytes of a run of 6-bit groups
(`base64.b64decode` bit reassembly). -/
def b64Bits (vals : List Nat) : List Nat :=
  (vals.foldl
    (fun (st : Nat × Nat × List Nat) v =>
      let buf := st.1 * 64 + v
      let cnt := st.2.1 + 6
      if 8 ≤ cnt then
        (buf % 2 ^ (cnt - 8), cnt - 8, st.2.2 ++ [buf / 2 ^ (cnt - 8)])
      else (buf, cnt, st.2.2))
    (0, 0, [])).2.2

/-- Python `base64.b64decode(s)` (with the default `validate=False`):
characters outside the alphabet and `=` are discarded, the remaining
length must be a multiple of 4, and `=` may only appear as one or two
trailing padding characters. -/
def b64decode (s : String) : Except PyErr (List Nat) :=
  let kept := s.data.filter (fun c => (b64CharVal c).isSome || c == '=')
  let body := (kept.reverse.dropWhile (fun c => c == '=')).reverse
  let pad := kept.length - body.length
  if kept.length % 4 != 0 || 2 < pad || body.any (fun c => c == '=') then
    .error (.valueError "Invalid base64-encoded string")
  else
    .ok (b64Bits (body.filterMap b64CharVal))

/-- Worker for `bytes.decode("utf-8")`; the fuel is an upper bound on the
number of bytes still to be consumed. -/
def utf8DecodeAux : Nat → List Nat → Except PyErr (List Char)
  | _, [] => .ok []
  | 0, _ :: _ => .error (.valueError "utf-8 fuel")
  | fuel + 1, b1 :: rest =>
    if b1 < 0x80 then
      (utf8DecodeAux fuel rest).map (fun cs => Char.ofNat b1 :: cs)
    else if 0xC2 ≤ b1 ∧ b1 < 0xE0 then
      match rest with
      | b2 :: rest2 =>
        if 0x80 ≤ b2 ∧ b2 < 0xC0 then
          (utf8DecodeAux fuel rest2).map
            (fun cs => Char.ofNat ((b1 - 0xC0) * 64 + (b2 - 0x80)) :: cs)
        else .error (.valueError "invalid continuation byte")
      | [] => .error (.valueError "unexpected end of data")
    else if 0xE0 ≤ b1 ∧ b1 < 0xF0 then
      match rest with
      | b2 :: b3 :: rest3 =>
        let cp := (b1 - 0xE0) * 4096 + (b2 - 0x80) * 64 + (b3 - 0x80)
        if (0x80 ≤ b2 ∧ b2 < 0xC0) ∧ (0x80 ≤ b3 ∧ b3 < 0xC0) ∧
            0x800 ≤ cp ∧ (cp < 0xD800 ∨ 0xDFFF < cp) then
          (utf8DecodeAux fuel rest3).map (fun cs => Char.ofNat cp :: cs)
        else .error (.valueError "invalid continuation byte")
      | _ => .error (.valueError "unexpected end of data")
    else if 0xF0 ≤ b1 ∧ b1 < 0xF5 then
      match rest with
      | b2 :: b3 :: b4 :: rest4 =>
        let cp := (b1 - 0xF0) * 262144 + (b2 - 0x80) * 4096 +
          (b3 - 0x80) * 64 + (b4 - 0x80)
        if (0x80 ≤ b2 ∧ b2 < 0xC0) ∧ (0x80 ≤ b3 ∧ b3 < 0xC0) ∧
            (0x80 ≤ b4 ∧ b4 < 0xC0) ∧ 0x10000 ≤ cp ∧ cp ≤ 0x10FFFF then
          (utf8DecodeAux fuel rest4).map (fun cs => Char.ofNat cp :: cs)
        else .error (.valueError "invalid continuation byte")
      | _ => .error (.valueError "unexpected end of data")
    else .error (.valueError "invalid start byte")

/-- Python `bytes.decode("utf-8")`. -/
def utf8Decode (bs : List Nat) : Except PyErr String :=
  (utf8DecodeAux bs.length bs).map String.mk

/-! ## Date and time (`datetime.strptime`, `strftime`, `timedelta`) -/

/-- A naive `datetime.datetime`. -/
structure PyDateTime where
  year : Nat
  month : Nat
  day : Nat
  hour : Nat
  minute : Nat
  second : Nat
deriving DecidableEq, Repr

/-- Gregorian leap year. -/
def isLeap (y : Nat) : Bool := (y % 4 == 0 && y % 100 != 0) || y % 400 == 0

/-- Days in a month. -/
def daysInMonth (y m : Nat) : Nat :=
  if m = 2 then (if isLeap y then 29 else 28)
  else if m = 4 ∨ m = 6 ∨ m = 9 ∨ m = 11 then 30
  else 31

/-- A run of 1 to `maxLen` decimal digits, as `strptime` numeric fields
accept. -/
def parseNatField (s : String) (maxLen : Nat) : Option Nat :=
  if !s.data.isEmpty && s.data.length ≤ maxLen && s.data.all Char.isDigit then
    some (digitsToNat s.data)
  else none

/-- `datetime.strptime(s, "%Y-%m-%dT%H:%M:%S")`, including the range
validation performed by the `datetime` constructor. -/
def strptime_iso (s : String) : Except PyErr PyDateTime :=
  match pySplit s "T" with
  | [datePart, timePart] =>
    match pySplit datePart "-", pySplit timePart ":" with
    | [ys, ms, ds], [hs, mins, secs] =>
      match parseNatField ys 4, parseNatField ms 2, parseNatField ds 2,
          parseNatField hs 2, parseNatField mins 2, parseNatField secs 2 with
      | some y, some mo, some d, some h, some mi, some sec =>
        if 1 ≤ y ∧ 1 ≤ mo ∧ mo ≤ 12 ∧ 1 ≤ d ∧ d ≤ daysInMonth y mo ∧
            h ≤ 23 ∧ mi ≤ 59 ∧ sec ≤ 59 then
          .ok ⟨y, mo, d, h, mi, sec⟩
        else .error (.valueError "time data does not match format")
      | _, _, _, _, _, _ => .error (.valueError "time data does not match format")
    | _, _ => .error (.valueError "time data does not match format")
  | _ => .error (.valueError "time data does not match format")

/-- Zero-pad a number to two digits (`%H`, `%M`, `%m`, `%d`). -/
def pad2 (n : Nat) : String := if n < 10 then "0" ++ toString n else toString n

/-- Zero-pad a number to four digits (`%Y`). -/
def pad4 (n : Nat) : String :=
  if n < 10 then "000" ++ toString n
  else if n < 100 then "00" ++ toString n
  else if n < 1000 then "0" ++ toString n
  else toString n

/-- `date.strftime("%Y-%m-%d")`. -/
def strftime_Ymd (t : PyDateTime) : String :=
  pad4 t.year ++ "-" ++ pad2 t.month ++ "-" ++ pad2 t.day

/-- `time.strftime("%H:%M")`. -/
def formatHM (t : PyDateTime) : String := pad2 t.hour ++ ":" ++ pad2 t.minute

/-- Days since 1970-01-01 of a civil date (Howard Hinnant's
`days_from_civil`, with Euclidean division). -/
def days_from_civil (y0 : Nat) (m d : Nat) : Int :=
  let y : Int := if m ≤ 2 then (y0 : Int) - 1 else y0
  let era : Int := Int.ediv y 400
  let yoe : Nat := (y - era * 400).toNat
  let mp : Nat := (m + 9) % 12
  let doy : Nat := (153 * mp + 2) / 5 + d - 1
  let doe : Nat := yoe * 365 + yoe / 4 - yoe / 100 + doy
  era * 146097 + (doe : Int) - 719468

/-- Civil date from days since 1970-01-01 (Howard Hinnant's
`civil_from_days`). -/
def civil_from_days (z0 : Int) : Nat × Nat × Nat :=
  let z : Int := z0 + 719468
  let era : Int := Int.ediv z 146097
  let doe : Nat := (z - era * 146097).toNat
  let yoe : Nat := (doe - doe / 1460 + doe / 36524 - doe / 146096) / 365
  let doy : Nat := doe - (365 * yoe + yoe / 4 - yoe / 100)
  let mp : Nat := (5 * doy + 2) / 153
  let d : Nat := doy - (153 * mp + 2) / 5 + 1
  let m : Nat := if mp < 10 then mp + 3 else mp - 9
  let y : Int := (yoe : Int) + era * 400 + (if m ≤ 2 then 1 else 0)
  (y.toNat, m, d)

/-- `dt + datetime.timedelta(days=n)` (the date range never leaves
`datetime`'s domain in the verified code paths). -/
def addDays (t : PyDateTime) (n : Int) : PyDateTime :=
  let ymd := civil_from_days (days_from_civil t.year t.month t.day + n)
  ⟨ymd.1, ymd.2.1, ymd.2.2, t.hour, t.minute, t.second⟩

/-- `date.weekday()`: Monday is 0 (1970-01-01 was a Thursday). -/
def pyWeekday (t : PyDateTime) : Int :=
  Int.emod (days_from_civil t.year t.month t.day + 3) 7

/-! ## Data model (`app/models/models.py`) -/

/-- The `Movie` pydantic model. -/
structure Movie where
  title : String
  runtime : Int
  genres : List String
  cast : List String
  director : String
  synopsis : String
  affiche : String
  wantToSee : Int
  id : Int
deriving DecidableEq, Repr

/-- The `Theater` pydantic model. -/
structure Theater where
  name : String
  internal_id : String
  location : Option String
deriving DecidableEq, Repr

/-- The `Showtime` pydantic model. -/
structure Showtime where
  movie : Movie
  theater : Theater
  start_at : PyDateTime
deriving DecidableEq, Repr

/-- `Theater.decode_movie_id`: base64-decode, UTF-8 decode, take the part
after the last `:` and parse it as an integer; every `ValueError` or
`TypeError` on the way is converted into
`Exception("Invalid movie ID format: ...")`. -/
def decode_movie_id (encoded_id : JVal) : Except PyErr Int :=
  let inner : Except PyErr Int := do
    let s ← match encoded_id with
      | .str s => pure s
      | _ => Except.error (.typeError "argument should be a bytes-like object or ASCII string")
    let bs ← b64decode s
    let decoded ← utf8Decode bs
    let decoded_id := (pySplit decoded ":").getLastD ""
    pyint decoded_id
  match inner with
  | .ok n => .ok n
  | .error _ => .error (.exc ("Invalid movie ID format: " ++ pyStrOf encoded_id))

/-- `Theater.parse_cast`:

```python
cast = []
for node_dict in edges:
    actor_info = node_dict.get("node", {}).get("actor", {})
    if actor_info:
        firstname = actor_info.get("firstName", " ")
        lastname = actor_info.get("lastName", " ")
        cast.append(f"{firstname} {lastname}"
                    if firstname and lastname else "Unknown")
return cast
```

Note that the defaults for a missing first/last name are the truthy
one-character string `" "`, not an empty string. -/
def parse_cast_step (cast : List String) (node_dict : JVal) :
    Except PyErr (List String) := do
  let node ← pyGet node_dict "node" (JVal.obj [])
  let actor_info ← pyGet node "actor" (JVal.obj [])
  if pyTruthy actor_info then do
    let firstname ← pyGet actor_info "firstName" (JVal.str " ")
    let lastname ← pyGet actor_info "lastName" (JVal.str " ")
    pure (cast ++ [if pyTruthy firstname && pyTruthy lastname then
        pyStrOf firstname ++ " " ++ pyStrOf lastname
      else "Unknown"])
  else pure cast

def parse_cast (edges : List JVal) : Except PyErr (List String) :=
  edges.foldlM parse_cast_step []

/-- `Theater.parse_director`: first credit's person, each name defaulting
to `"Unknown"`; `"Unknown"` when credits is not a non-empty list. -/
def parse_director (credits : JVal) : Except PyErr String :=
  match credits with
  | .arr (c0 :: _) => do
    let person ← pyGet c0 "person" (JVal.obj [])
    let first_name ← pyGet person "firstName" (JVal.str "Unknown")
    let last_name ← pyGet person "lastName" (JVal.str "Unknown")
    pure (pyStrOf first_name ++ " " ++ pyStrOf last_name)
  | _ => pure "Unknown"

/-- `Theater.parse_movie`, field by field in source order (the `title`
lookup happens when the `Movie(...)` constructor call is evaluated,
after `movie_id`). -/
def parse_movie (_self : Theater) (movie_info : JVal) : Except PyErr Movie := do
  let runtimeJ ← pyGet movie_info "runtime" JVal.null
  let runtimeArg ← match runtimeJ with
    | .null => pure (none : Option String)
    | .str s => pure (some s)
    | _ => Except.error (.typeError "argument of type 'int' is not iterable")
  let runtime ← _parse_runtime runtimeArg
  let genresJ ← pyGet movie_info "genres" (JVal.arr [])
  let genresL ← asList genresJ
  let genres ← genresL.mapM (fun genre => do
    let t ← pyGetItem genre "translate"
    asStr t)
  let castJ ← pyGet movie_info "cast" (JVal.obj [])
  let edgesJ ← pyGet castJ "edges" (JVal.arr [])
  let edges ← asList edgesJ
  let cast ← parse_cast edges
  let creditsJ ← pyGet movie_info "credits" (JVal.arr [])
  let director ← parse_director creditsJ
  let affiche_info ← pyGet movie_info "poster" JVal.null
  let affiche ← if pyTruthy affiche_info then do
      let u ← pyGet affiche_info "url" (JVal.str "")
      asStr u
    else pure ""
  let wantJ ← pyGet movie_info "wantToSee" (JVal.num 0)
  let want_to_see ← pyIntOf wantJ
  let idJ ← pyGetItem movie_info "id"
  let movie_id ← decode_movie_id idJ
  let titleJ ← pyGetItem movie_info "title"
  let title ← asStr titleJ
  let synopsisJ ← pyGet movie_info "synopsis" (JVal.str "")
  let synopsis ← asStr synopsisJ
  pure { title := title, runtime := runtime, genres := genres, cast := cast,
         director := director, synopsis := synopsis, affiche := affiche,
         wantToSee := want_to_see, id := movie_id }

/-! ## The theater paginator (`Theater.get_showtimes`) -/

/-- An upstream HTTP response. -/
structure HttpResponse where
  status_code : Nat
  text : String
  body : JVal

/-- The upstream listings API, as a mapping from
(theater internal id, date string, page) to a response. -/
abbrev Env := String → String → Nat → HttpResponse

/-- `Theater.fetch_showtimes_page`: one GET; any status other than 200
raises `Exception(f"Error: {status} - {text}")`. -/
def fetch_showtimes_page (self : Theater) (env : Env) (date : PyDateTime)
    (page : Nat) : Except PyErr JVal :=
  let datestr := strftime_Ymd date
  let response := env self.internal_id datestr page
  if response.status_code ≠ 200 then
    .error (.exc ("Error: " ++ toString response.status_code ++ " - " ++ response.text))
  else .ok response.body

/-- The stop condition of the pagination loop:
`data.get("message") in ["no.showtime.error", "next.showtime.on"] or
data.get("error")`. -/
def isStopMsg : JVal → Bool
  | .str s => s == "no.showtime.error" || s == "next.showtime.on"
  | _ => false

/-- Evaluate the stop condition (`.get` raises on non-dict responses). -/
def checkStop (data : JVal) : Except PyErr Bool := do
  let msg ← pyGet data "message" JVal.null
  let err ← pyGet data "error" JVal.null
  pure (isStopMsg msg || pyTruthy err)

/-- Parse one entry of a movie block's showtime list:
`datetime.strptime(showtime_data["startsAt"], "%Y-%m-%dT%H:%M:%S")` and
wrap it in a `Showtime`. -/
def parseShowtimeEntry (self : Theater) (movie : Movie) (showtime_data : JVal) :
    Except PyErr Showtime := do
  let sv ← pyGetItem showtime_data "startsAt"
  let sstr ← asStr sv
  let start_time ← strptime_iso sstr
  pure ⟨movie, self, start_time⟩

/-- Process one movie block of a response page: parse the movie, then
`showtimes.get("dubbed", []) + showtimes.get("original", []) +
showtimes.get("local", [])`, in that order. -/
def parseBlock (self : Theater) (movie_data : JVal) : Except PyErr (List Showtime) := do
  let mval ← pyGetItem movie_data "movie"
  let movie ← parse_movie self mval
  let stsObj ← pyGetItem movie_data "showtimes"
  let dubbed ← pyGet stsObj "dubbed" (JVal.arr [])
  let original ← pyGet stsObj "original" (JVal.arr [])
  let localL ← pyGet stsObj "local" (JVal.arr [])
  let l1 ← asList dubbed
  let l2 ← asList original
  let l3 ← asList localL
  (l1 ++ l2 ++ l3).mapM (parseShowtimeEntry self movie)

/-- Process all movie blocks of one page (`for movie_data in
data["results"]`), accumulating showtimes in block order. -/
def parsePage (self : Theater) (data : JVal) : Except PyErr (List Showtime) := do
  let resultsJ ← pyGetItem data "results"
  let results ← asList resultsJ
  let lists ← results.mapM (parseBlock self)
  pure lists.flatten

/-- The reported pagination numbers:
`(int(data["pagination"]["page"]), int(data["pagination"]["totalPages"]))`. -/
def paginationNumbers (data : JVal) : Except PyErr (Int × Int) := do
  let pag ← pyGetItem data "pagination"
  let p ← pyGetItem pag "page"
  let tp ← pyGetItem pag "totalPages"
  let pn ← pyIntOf p
  let tpn ← pyIntOf tp
  pure (pn, tpn)

/-- The last-page test `int(page) >= int(totalPages)`. -/
def isLastPage (data : JVal) : Except PyErr Bool := do
  let pn ← paginationNumbers data
  pure (pn.2 ≤ pn.1)

/-- The `while True` pagination loop of `Theater.get_showtimes`,
instrumented with the list of page numbers actually fetched (second
component).  The fuel only bounds the number of iterations; it is not
part of the source semantics. -/
def getShowtimesLoop (self : Theater) (env : Env) (date : PyDateTime) :
    Nat → Nat → List Showtime → Except PyErr (List Showtime) × List Nat
  | 0, _, _ => (.error .outOfFuel, [])
  | fuel + 1, page, showtimes =>
    match fetch_showtimes_page self env date page with
    | .error e => (.error e, [page])
    | .ok data =>
      match checkStop data with
      | .error e => (.error e, [page])
      | .ok true => (.ok showtimes, [page])
      | .ok false =>
        match parsePage self data with
        | .error e => (.error e, [page])
        | .ok pageShowtimes =>
          match isLastPage data with
          | .error e => (.error e, [page])
          | .ok true => (.ok (showtimes ++ pageShowtimes), [page])
          | .ok false =>
            let next := getShowtimesLoop self env date fuel (page + 1)
              (showtimes ++ pageShowtimes)
            (next.1, page :: next.2)

/-- `Theater.get_showtimes`: run the loop from page 1 with an empty
accumulator. -/
def Theater.get_showtimes (self : Theater) (env : Env) (fuel : Nat)
    (date : PyDateTime) : Except PyErr (List Showtime) :=
  (getShowtimesLoop self env date fuel 1 []).1

/-! ## The aggregator (`app/services/cinema_service.py`) -/

/-- One value of the title-keyed dict built by `get_all_showtimes`
(`seances` is the inner theater-name dict, insertion-ordered). -/
structure AggEntry where
  title : String
  duree : Int
  genres : String
  casting : String
  realisateur : String
  synopsis : String
  affiche : String
  director : String
  wantToSee : Int
  url : String
  seances : List (String × List String)
deriving DecidableEq, Repr

/-- The fresh aggregated entry created on first sight of a title. -/
def mkEntry (m : Movie) : AggEntry :=
  { title := m.title
    duree := m.runtime
    genres := String.intercalate ", " m.genres
    casting := String.intercalate ", " m.cast
    realisateur := m.director
    synopsis := m.synopsis
    affiche := m.affiche
    director := m.director
    wantToSee := m.wantToSee
    url := "https://www.allocine.fr/film/fichefilm_gen_cfilm=" ++ toString m.id ++ ".html"
    seances := [] }

/-- `theater.name in data[movie.title]["seances"]`. -/
def hasName (se : List (String × List String)) (n : String) : Bool :=
  se.any (fun p => p.1 == n)

/-- Ensure the per-theater sub-list exists, then append the formatted
start time to it. -/
def addSeance (se : List (String × List String)) (n time : String) :
    List (String × List String) :=
  let ensured := if hasName se n then se else se ++ [(n, [])]
  ensured.map (fun p => if p.1 = n then (p.1, p.2 ++ [time]) else p)

/-- `movie.title in data`. -/
def hasTitle (data : List AggEntry) (t : String) : Bool :=
  data.any (fun e => e.title == t)

/-- One iteration of the aggregation fold of `get_all_showtimes`: create
the entry on first sight of the title, then append the showtime's
`"%H:%M"` time to the per-theater sub-list.  The dict is modelled as an
insertion-ordered list with unique titles, so updating "the" entry is a
map over entries with a matching title. -/
def aggStep (data : List AggEntry) (s : Showtime) : List AggEntry :=
  let ensured := if hasTitle data s.movie.title then data else data ++ [mkEntry s.movie]
  ensured.map (fun e =>
    if e.title = s.movie.title then
      { e with seances := addSeance e.seances s.theater.name (formatHM s.start_at) }
    else e)

/-- The title-keyed dict of `get_all_showtimes` in insertion order
(`data.values()` before sorting). -/
def aggEntriesOf (showtimes : List Showtime) : List AggEntry :=
  showtimes.foldl aggStep []

/-- Stable insertion into a descending-by-`wantToSee` list: an element is
placed after every element with a greater-or-equal key. -/
def insertDesc (x : AggEntry) : List AggEntry → List AggEntry
  | [] => [x]
  | y :: ys => if x.wantToSee ≤ y.wantToSee then y :: insertDesc x ys else x :: y :: ys

/-- `sorted(data.values(), key=lambda x: x["wantToSee"], reverse=True)`:
a stable sort on one numeric key, descending (CPython's `sorted` is
stable and `reverse=True` does not reverse ties), implemented as a stable
insertion sort. -/
def sortDesc (l : List AggEntry) : List AggEntry :=
  l.foldl (fun acc x => insertDesc x acc) []

/-- The aggregation fold of `get_all_showtimes` (lines 38-62 of
`cinema_service.py`), as a function of the concatenated showtime list. -/
def get_all_showtimes_from (showtimes : List Showtime) : List AggEntry :=
  sortDesc (aggEntriesOf showtimes)

/-- The sequential per-theater fetch loop of `get_all_showtimes`
(`showtimes.extend(await theater.get_showtimes(date))`). -/
def collectShowtimes (env : Env) (fuel : Nat) (date : PyDateTime) :
    List Theater → Except PyErr (List Showtime)
  | [] => .ok []
  | t :: ts => do
    let s ← Theater.get_showtimes t env fuel date
    let rest ← collectShowtimes env fuel date ts
    pure (s ++ rest)

/-- `get_all_showtimes`: fetch all theaters sequentially, then aggregate.
The theater list is the module-level `theaters` built from the
`cinemas.yml` configuration (external to the sources), so it is passed
as a parameter here. -/
def get_all_showtimes (theaters : List Theater) (env : Env) (fuel : Nat)
    (date : PyDateTime) : Except PyErr (List AggEntry) := do
  let showtimes ← collectShowtimes env fuel date theaters
  pure (get_all_showtimes_from showtimes)

/-- `translate_day` from `cinema_service.py` (a dict `.get` with default
`"???"`). -/
def translate_day (weekday : Int) : String :=
  if weekday = 0 then "lun"
  else if weekday = 1 then "mar"
  else if weekday = 2 then "mer"
  else if weekday = 3 then "jeu"
  else if weekday = 4 then "ven"
  else if weekday = 5 then "sam"
  else if weekday = 6 then "dim"
  else "???"

/-- `translate_month` from `cinema_service.py`. -/
def translate_month (num : Int) : String :=
  if num = 1 then "janv"
  else if num = 2 then "févr"
  else if num = 3 then "mars"
  else if num = 4 then "avr"
  else if num = 5 then "mai"
  else if num = 6 then "juin"
  else if num = 7 then "juil"
  else if num = 8 then "août"
  else if num = 9 then "sept"
  else if num = 10 then "oct"
  else if num = 11 then "nov"
  else if num = 12 then "déc"
  else "???"

/-! ## The home route (`app/api/routes.py`) -/

/-- One entry of the 7-day selector rendered by `home`. -/
structure DateEntry where
  jour : String
  chiffre : Nat
  mois : String
  choisi : Bool
  index : Nat
deriving DecidableEq, Repr

/-- The delta-dependent observable output of the `home` route: the day
selector, the date whose schedule is requested, and the aggregated film
list (the static cinema list does not depend on `delta` and is omitted). -/
structure HomeRender where
  dates : List DateEntry
  schedule_date : PyDateTime
  films : Except PyErr (List AggEntry)
deriving Repr

/-- The `home` route:

```python
if delta > 6:
    delta = 6
if delta < 0:
    delta = 0
dates = [... for i in range(7)]
films = await get_all_showtimes(datetime.today() + timedelta(days=delta))
```
-/
def home (theaters : List Theater) (env : Env) (fuel : Nat)
    (today : PyDateTime) (delta0 : Int) : HomeRender :=
  let delta1 : Int := if delta0 > 6 then 6 else delta0
  let delta : Int := if delta1 < 0 then 0 else delta1
  let dates := (List.range 7).map (fun (i : Nat) =>
    let di := addDays today (i : Int)
    { jour := translate_day (pyWeekday di)
      chiffre := di.day
      mois := translate_month (di.month : Int)
      choisi := ((i : Int) == delta)
      index := i : DateEntry })
  let films := get_all_showtimes theaters env fuel (addDays today delta)
  { dates := dates, schedule_date := addDays today delta, films := films }

/-! ## Observation helpers used in the claim statements -/

/-- The value under a theater-name key of a `seances` dict. -/
def seLookup (se : List (String × List String)) (n : String) : Option (List String) :=
  (se.find? (fun p => p.1 == n)).map (fun p => p.2)

/-- The formatted start times of all showtimes of title `t` at theater
name `n`, in arrival order. -/
def timesFor (showtimes : List Showtime) (t n : String) : List String :=
  (showtimes.filter (fun s => s.movie.title == t && s.theater.name == n)).map
    (fun s => formatHM s.start_at)

/-- The aggregated entry for a title (the dict is title-keyed, so this is
the unique entry when titles are distinct). -/
def entryFor (data : List AggEntry) (t : String) : Option AggEntry :=
  data.find? (fun e => e.title == t)

/-- The times recorded for `(title, theater name)` in an aggregation
state. -/
def obsTimes (data : List AggEntry) (t n : String) : Option (List String) :=
  match entryFor data t with
  | none => none
  | some e => seLookup e.seances n

/-- Append new times to an optional existing time list (`none` plays the
role of "key not present yet"). -/
def combineOpt (o : Option (List String)) (l : List String) : Option (List String) :=
  match o with
  | none => if l.isEmpty then none else some l
  | some l0 => some (l0 ++ l)

/-- The titles of the aggregation state, in insertion order. -/
def titlesOf (data : List AggEntry) : List String := data.map (fun e => e.title)

/-- Keep the first occurrence of every element, in first-seen order
(the key order of a Python dict built by repeated insertion). -/
def firstSeenTitles (ts : List String) : List String :=
  ts.foldl (fun acc t => if t ∈ acc then acc else acc ++ [t]) []

/-! ## Specification-side description of `parse_cast` (for claim C6)

`castRuleSpec` follows the wording of the amended claim: an edge with an
absent, empty or otherwise falsy actor payload is skipped entirely; for
the remaining edges, a missing first or last name defaults to the truthy
one-character string `" "`, and `"Unknown"` is emitted exactly when one of
the two looked-up name values is falsy (which can only happen when the
name is present but falsy, e.g. `""` or `null`). -/

/-- Amended per-edge rule for `parse_cast`. -/
def castRuleSpec (edge : JVal) : Option String :=
  match edge with
  | .obj fs =>
    match (jLookup fs "node").getD (JVal.obj []) with
    | .obj nfs =>
      let actor := (jLookup nfs "actor").getD (JVal.obj [])
      if pyTruthy actor then
        match actor with
        | .obj afs =>
          let fn := (jLookup afs "firstName").getD (JVal.str " ")
          let ln := (jLookup afs "lastName").getD (JVal.str " ")
          some (if pyTruthy fn && pyTruthy ln then
              pyStrOf fn ++ " " ++ pyStrOf ln
            else "Unknown")
        | _ => none
      else none
    | _ => none
  | _ => none

/-- Well-formedness of a cast edge: the shapes on which the Python code
performs no `.get` on a non-dict (edge is a dict, its `node` value is a
dict, and a truthy actor value is a dict). -/
def castEdgeWF (edge : JVal) : Bool :=
  match edge with
  | .obj fs =>
    match (jLookup fs "node").getD (JVal.obj []) with
    | .obj nfs =>
      match (jLookup nfs "actor").getD (JVal.obj []) with
      | .obj _ => true
      | a => !pyTruthy a
    | _ => false
  | _ => false

/-! ## Concrete data used by the witnesses -/

/-- A theater, as in the repository's unit tests. -/
def theaterW : Theater := ⟨"Test Theater", "12345", some "Test Location"⟩

/-- A date used by the witnesses. -/
def dateW : PyDateTime := ⟨2023, 5, 1, 0, 0, 0⟩

/-- A showtime-list entry of the upstream response shape. -/
def stW (s : String) : JVal := .obj [("startsAt", .str s)]

/-- A raw movie record; `"MTIz"` is the base64 encoding of `"123"`. -/
def mvalW1 : JVal := .obj [("title", .str "Test Movie"), ("id", .str "MTIz")]

/-- A raw movie record; `"NDU2"` is the base64 encoding of `"456"`. -/
def mvalW2 : JVal := .obj [("title", .str "Another Movie"), ("id", .str "NDU2")]

/-- The parsed form of `mvalW1`. -/
def movieW1 : Movie := ⟨"Test Movie", 0, [], [], "Unknown", "", "", 0, 123⟩

/-- The parsed form of `mvalW2`. -/
def movieW2 : Movie := ⟨"Another Movie", 0, [], [], "Unknown", "", "", 0, 456⟩

/-- Page 1 of 2 of a two-page upstream response sequence. -/
def pageW1 : JVal := .obj
  [("results", .arr [ .obj [("movie", mvalW1),
     ("showtimes", .obj [("dubbed", .arr [stW "2023-05-01T10:00:00"]),
                         ("original", .arr [stW "2023-05-01T12:00:00"]),
                         ("local", .arr [stW "2023-05-01T14:00:00"])])] ]),
   ("pagination", .obj [("page", .str "1"), ("totalPages", .str "2")])]

/-- Page 2 of 2 of a two-page upstream response sequence. -/
def pageW2 : JVal := .obj
  [("results", .arr [ .obj [("movie", mvalW2),
     ("showtimes", .obj [("dubbed", .arr [stW "2023-05-01T16:00:00"]),
                         ("original", .arr []),
                         ("local", .arr [])])] ]),
   ("pagination", .obj [("page", .str "2"), ("totalPages", .str "2")])]

/-- An environment serving the two-page sequence. -/
def envW : Env := fun _ _ page => if page = 1 then ⟨200, "", pageW1⟩ else ⟨200, "", pageW2⟩

/-- The showtimes parsed from page 1 by `theaterW`. -/
def showtimesW1 : List Showtime :=
  [⟨movieW1, theaterW, ⟨2023, 5, 1, 10, 0, 0⟩⟩,
   ⟨movieW1, theaterW, ⟨2023, 5, 1, 12, 0, 0⟩⟩,
   ⟨movieW1, theaterW, ⟨2023, 5, 1, 14, 0, 0⟩⟩]

/-- The showtimes parsed from page 2 by `theaterW`. -/
def showtimesW2 : List Showtime := [⟨movieW2, theaterW, ⟨2023, 5, 1, 16, 0, 0⟩⟩]

/-- An environment whose every response has HTTP status 500. -/
def envErrW : Env := fun _ _ _ => ⟨500, "oops", .null⟩

/-- Two theaters used by the aggregation witnesses. -/
def theaterWA : Theater := ⟨"A", "1", none⟩

/-- Second theater used by the aggregation witnesses. -/
def theaterWB : Theater := ⟨"B", "2", none⟩

/-- A movie with popularity 5 used by the aggregation witnesses. -/
def movieWB : Movie := ⟨"B Movie", 0, [], [], "Unknown", "", "", 5, 456⟩

/-- A concatenated showtime list: the same title at two theaters, twice at
theater `A`, interleaved with a different title. -/
def aggShowtimesW : List Showtime :=
  [⟨movieW1, theaterWA, ⟨2023, 5, 1, 10, 0, 0⟩⟩,
   ⟨movieWB, theaterWB, ⟨2023, 5, 1, 11, 0, 0⟩⟩,
   ⟨movieW1, theaterWB, ⟨2023, 5, 1, 12, 0, 0⟩⟩,
   ⟨movieW1, theaterWA, ⟨2023, 5, 1, 14, 30, 0⟩⟩]

/-- The aggregated entry produced for `movieWB` from `aggShowtimesW`. -/
def entryWB : AggEntry :=
  { title := "B Movie", duree := 0, genres := "", casting := "",
    realisateur := "Unknown", synopsis := "", affiche := "",
    director := "Unknown", wantToSee := 5,
    url := "https://www.allocine.fr/film/fichefilm_gen_cfilm=456.html",
    seances := [("B", ["11:00"])] }

/-- Cast edges used by the C6 witness: a complete actor, an edge with no
payload, and an actor whose first name is present but empty. -/
def castEdgesW : List JVal :=
  [JVal.obj [("node", JVal.obj [("actor", JVal.obj
      [("firstName", JVal.str "John"), ("lastName", JVal.str "Doe")])])],
   JVal.obj [],
   JVal.obj [("node", JVal.obj [("actor", JVal.obj
      [("firstName", JVal.str ""), ("lastName", JVal.str "Doe")])])]]

/-! ## Helper lemmas: characters of split results come from the input -/

theorem splitSepAux_subset (sep : List Char) :
    ∀ (fuel : Nat) (cur cs piece : List Char),
      piece ∈ splitSepAux sep fuel cur cs → ∀ c ∈ piece, c ∈ cur ∨ c ∈ cs := by
  intro fuel
  induction fuel with
  | zero =>
    intro cur cs piece hp c hc
    simp only [splitSepAux, List.mem_singleton] at hp
    subst hp
    exact Or.inl (List.mem_reverse.mp hc)
  | succ n ih =>
    intro cur cs piece hp c hc
    cases cs with
    | nil =>
      simp only [splitSepAux, List.mem_singleton] at hp
      subst hp
      exact Or.inl (List.mem_reverse.mp hc)
    | cons c0 cs' =>
      simp only [splitSepAux] at hp
      by_cases hsw : listStartsWith (c0 :: cs') sep
      · rw [if_pos hsw] at hp
        rcases List.mem_cons.mp hp with h1 | h2
        · subst h1
          exact Or.inl (List.mem_reverse.mp hc)
        · rcases ih [] (cs'.drop (sep.length - 1)) piece h2 c hc with h | h
          · exact absurd h (List.not_mem_nil c)
          · exact Or.inr (List.mem_cons_of_mem _ (List.mem_of_mem_drop h))
      · rw [if_neg hsw] at hp
        rcases ih (c0 :: cur) cs' piece hp c hc with h | h
        · rcases List.mem_cons.mp h with h' | h'
          · exact Or.inr (by simp [h'])
          · exact Or.inl h'
        · exact Or.inr (List.mem_cons_of_mem _ h)

theorem pySplit_subset (s sep p : String) (hp : p ∈ pySplit s sep) :
    ∀ c ∈ p.data, c ∈ s.data := by
  intro c hc
  simp only [pySplit, List.mem_map] at hp
  obtain ⟨piece, hpiece, rfl⟩ := hp
  rcases splitSepAux_subset sep.data _ [] s.data piece hpiece c (by simpa using hc) with h | h
  · exact absurd h (List.not_mem_nil c)
  · exact h

theorem pyWordsAux_subset :
    ∀ (fuel : Nat) (cs w : List Char), w ∈ pyWordsAux fuel cs → ∀ c ∈ w, c ∈ cs := by
  intro fuel
  induction fuel with
  | zero => intro cs w hw; simp [pyWordsAux] at hw
  | succ n ih =>
    intro cs w hw c hc
    simp only [pyWordsAux] at hw
    rcases hd : cs.dropWhile Char.isWhitespace with _ | ⟨c0, rest⟩ <;> rw [hd] at hw
    · simp at hw
    · have hsubcs : c0 :: rest ⊆ cs := by
        rw [← hd]; exact (List.dropWhile_sublist _).subset
      rcases List.mem_cons.mp hw with h1 | h2
      · subst h1
        rcases List.mem_cons.mp hc with h' | h'
        · exact hsubcs (by simp [h'])
        · exact hsubcs (List.mem_cons_of_mem _ ((List.takeWhile_sublist _).subset h'))
      · have hmem := ih _ w h2 c hc
        have : c ∈ rest := (List.dropWhile_sublist _).subset hmem
        exact hsubcs (List.mem_cons_of_mem _ this)

theorem pyWords_subset (s w : String) (hw : w ∈ pyWords s) : ∀ c ∈ w.data, c ∈ s.data := by
  intro c hc
  simp only [pyWords, List.mem_map] at hw
  obtain ⟨piece, hpiece, rfl⟩ := hw
  exact pyWordsAux_subset _ s.data piece hpiece c (by simpa using hc)

theorem pyStrip_subset (cs : List Char) : ∀ c ∈ pyStrip cs, c ∈ cs := by
  intro c hc
  simp only [pyStrip, List.mem_reverse] at hc
  have h1 : c ∈ (cs.dropWhile Char.isWhitespace).reverse :=
    (List.dropWhile_sublist _).subset hc
  rw [List.mem_reverse] at h1
  exact (List.dropWhile_sublist _).subset h1

theorem pyintChars_nonneg (cs : List Char) (v : Int)
    (h : pyintChars cs = .ok v) (hm : ('-' : Char) ∉ cs) : 0 ≤ v := by
  cases cs with
  | nil => simp [pyintChars] at h
  | cons c ds =>
    have hcne : ¬(c = '-') := fun hceq => hm (by simp [hceq])
    simp only [pyintChars, if_neg hcne] at h
    by_cases hcp : c = '+'
    · rw [if_pos hcp] at h
      split at h
      · injection h with h'; subst h'; exact Int.natCast_nonneg _
      · exact absurd h (by simp)
    · rw [if_neg hcp] at h
      split at h
      · injection h with h'; subst h'; exact Int.natCast_nonneg _
      · exact absurd h (by simp)

theorem pyint_nonneg (s : String) (v : Int)
    (h : pyint s = .ok v) (hm : ('-' : Char) ∉ s.data) : 0 ≤ v :=
  pyintChars_nonneg _ v h (fun hc => hm (pyStrip_subset _ _ hc))

theorem mem_of_getLast?_eq {α : Type} : ∀ (l : List α) (a : α), l.getLast? = some a → a ∈ l
  | [], a, h => by simp at h
  | [x], a, h => by
    simp only [List.getLast?_singleton, Option.some.injEq] at h
    simp [h]
  | x :: y :: t, a, h => by
    rw [List.getLast?_cons_cons] at h
    exact List.mem_cons_of_mem _ (mem_of_getLast?_eq (y :: t) a h)

theorem exceptBindOk {ε α β : Type} (a : α) (f : α → Except ε β) :
    (Except.ok a >>= f) = f a := rfl

theorem exceptBindErr {ε α β : Type} (e : ε) (f : α → Except ε β) :
    ((Except.error e : Except ε α) >>= f) = Except.error e := rfl

theorem exceptPureBind {ε α β : Type} (a : α) (f : α → Except ε β) :
    ((pure a : Except ε α) >>= f) = f a := rfl

theorem exceptMapOk {ε α β : Type} (a : α) (f : α → β) :
    (f <$> (Except.ok a : Except ε α)) = Except.ok (f a) := rfl

theorem exceptMapErr {ε α β : Type} (e : ε) (f : α → β) :
    (f <$> (Except.error e : Except ε α)) = (Except.error e : Except ε β) := rfl

/-- Inversion of a successful run of `_parse_runtime` on a present
string: it decomposes into an hour component and a minute component,
each read from the corresponding marker or defaulted to 0. -/
theorem parse_runtime_some_inv (s : String) (n : Int)
    (hok : _parse_runtime (some s) = Except.ok n) :
    ∃ h m : Int, n = h * 60 + m ∧
      ((hasSub s "h" = true ∧ pyint ((pySplit s "h").headD "") = Except.ok h) ∨
        (hasSub s "h" = false ∧ h = 0)) ∧
      ((hasSub s "min" = true ∧ ∃ w,
          (pyWords ((pySplit s "min").headD "")).getLast? = some w ∧
          pyint w = Except.ok m) ∨
        (hasSub s "min" = false ∧ m = 0)) := by
  simp only [_parse_runtime] at hok
  by_cases h1 : hasSub s "h"
  · rw [if_pos h1] at hok
    rcases hpx : pyint ((pySplit s "h").headD "") with e | hv <;> rw [hpx] at hok
    · simp only [exceptBindErr] at hok; exact absurd hok (by simp)
    · simp only [exceptBindOk] at hok
      by_cases h2 : hasSub s "min"
      · rw [if_pos h2] at hok
        rcases hlast : (pyWords ((pySplit s "min").headD "")).getLast? with _ | w <;>
          rw [hlast] at hok <;> dsimp only at hok
        · simp only [exceptBindErr] at hok; exact absurd hok (by simp)
        · rcases hpw : pyint w with e | mv <;> rw [hpw] at hok <;>
            simp only [exceptBindErr, exceptBindOk, exceptMapErr, exceptMapOk] at hok
          · exact absurd hok (by simp)
          · refine ⟨hv, mv, ?_, Or.inl ⟨h1, rfl⟩, Or.inl ⟨h2, w, rfl, hpw⟩⟩
            have := hok
            simp only [pure, Except.pure, Except.ok.injEq] at this
            omega
      · rw [if_neg h2] at hok
        refine ⟨hv, 0, ?_, Or.inl ⟨h1, rfl⟩, Or.inr ⟨by simpa using h2, rfl⟩⟩
        simp only [pure, Except.pure, exceptBindOk, Except.ok.injEq] at hok
        omega
  · rw [if_neg h1] at hok
    simp only [pure, Except.pure, exceptBindOk] at hok
    by_cases h2 : hasSub s "min"
    · rw [if_pos h2] at hok
      rcases hlast : (pyWords ((pySplit s "min").headD "")).getLast? with _ | w <;>
        rw [hlast] at hok <;> dsimp only at hok
      · simp only [exceptBindErr] at hok; exact absurd hok (by simp)
      · rcases hpw : pyint w with e | mv <;> rw [hpw] at hok <;>
          simp only [exceptBindErr, exceptBindOk, exceptMapErr, exceptMapOk] at hok
        · exact absurd hok (by simp)
        · refine ⟨0, mv, ?_, Or.inr ⟨by simpa using h1, rfl⟩, Or.inl ⟨h2, w, rfl, hpw⟩⟩
          simp only [pure, Except.pure, Except.ok.injEq] at hok
          omega
    · rw [if_neg h2] at hok
      refine ⟨0, 0, ?_, Or.inr ⟨by simpa using h1, rfl⟩, Or.inr ⟨by simpa using h2, rfl⟩⟩
      simp only [pure, Except.pure, exceptBindOk, Except.ok.injEq] at hok
      omega

/-- C4 (counterexample): the claim "every normal return of the runtime
parser is ≥ 0" is false on the code: on the string `"-2h"` the parser
returns normally with the negative value `-120`
(Python: `int("-2") * 60 + 0`). -/
theorem c4_counterexample :
    _parse_runtime (some "-2h") = Except.ok (-120) ∧ (-120 : Int) < 0 :=
  ⟨rfl, by norm_num⟩

/-- C4 (amended): for every input (string or absent value) on which the
runtime parser returns normally, if the input contains no `'-'`
character, the returned integer is ≥ 0. -/
theorem c4_runtime_nonneg (o : Option String) (n : Int)
    (hok : _parse_runtime o = Except.ok n)
    (hnm : ∀ s, o = some s → ('-' : Char) ∉ s.data) : 0 ≤ n := by
  cases o with
  | none =>
    simp only [_parse_runtime, Except.ok.injEq] at hok
    omega
  | some s =>
    have hs : ('-' : Char) ∉ s.data := hnm s rfl
    obtain ⟨h, m, rfl, hH, hM⟩ := parse_runtime_some_inv s n hok
    have hh : 0 ≤ h := by
      rcases hH with ⟨_, hpx⟩ | ⟨_, rfl⟩
      · rcases hps : pySplit s "h" with _ | ⟨p0, prest⟩
        · rw [hps, show (([] : List String).headD "") = "" from rfl,
            show pyint "" = Except.error (.valueError "") from rfl] at hpx
          exact absurd hpx (by simp)
        · rw [hps, show ((p0 :: prest).headD "") = p0 from rfl] at hpx
          exact pyint_nonneg _ _ hpx
            (fun hc => hs (pySplit_subset s "h" p0 (by simp [hps]) _ hc))
      · omega
    have hm : 0 ≤ m := by
      rcases hM with ⟨_, w, hw, hpw⟩ | ⟨_, rfl⟩
      · rcases hps : pySplit s "min" with _ | ⟨p0, prest⟩
        · rw [hps, show (([] : List String).headD "") = "" from rfl,
            show pyWords "" = [] from rfl] at hw
          exact absurd hw (by simp)
        · rw [hps, show ((p0 :: prest).headD "") = p0 from rfl] at hw
          have hwmem : w ∈ pyWords p0 := mem_of_getLast?_eq _ _ hw
          exact pyint_nonneg _ _ hpw (fun hc =>
            hs (pySplit_subset s "min" p0 (by simp [hps]) _
              (pyWords_subset p0 w hwmem _ hc)))
      · omega
    omega

/-- C4 (witness): the amended theorem applied at the concrete input
`"1h 54min"`. -/
theorem c4_runtime_nonneg_witness :
    _parse_runtime (some "1h 54min") = Except.ok 114 ∧ (0 : Int) ≤ 114 :=
  ⟨rfl, c4_runtime_nonneg (some "1h 54min") 114 rfl
    (fun s hs => by cases hs; decide)⟩

/-- C5 (counterexample): the claim "`parse("invalid")` raises" is false
on the code: `"invalid"` contains neither an `"h"` nor a `"min"` marker,
so both components default to 0 and the parser returns 0 normally (the
repository's own test `test_parse_runtime_invalid_format` asserts
exactly this). -/
theorem c5_counterexample :
    _parse_runtime (some "invalid") = Except.ok 0 ∧
      ∀ e : PyErr, _parse_runtime (some "invalid") ≠ Except.error e := by
  refine ⟨rfl, ?_⟩
  intro e h
  rw [show _parse_runtime (some "invalid") = Except.ok 0 from rfl] at h
  exact absurd h (by simp)

/-- C5 (amended): `parse("invalid")` returns 0; a parse failure
propagates only when a marker is present with a malformed numeric
substring, e.g. `"xh"` raises `ValueError` (from `int("x")`). -/
theorem c5_amended :
    _parse_runtime (some "invalid") = Except.ok 0 ∧
      _parse_runtime (some "xh") = Except.error (.valueError "x") :=
  ⟨rfl, rfl⟩

/-- C7: the runtime parser satisfies the five concrete examples of the
specification, and in general a normal result is hours×60+minutes where
the hour component is read before the `"h"` marker (0 if absent) and the
minute component is the last whitespace-separated word before the
`"min"` marker (0 if absent). -/
theorem c7_runtime_formula :
    _parse_runtime (some "1h 54min") = Except.ok 114 ∧
    _parse_runtime (some "2h") = Except.ok 120 ∧
    _parse_runtime (some "45min") = Except.ok 45 ∧
    _parse_runtime (some "") = Except.ok 0 ∧
    _parse_runtime none = Except.ok 0 ∧
    ∀ (s : String) (h m : Int),
      (hasSub s "h" = true → pyint ((pySplit s "h").headD "") = Except.ok h) →
      (hasSub s "h" = false → h = 0) →
      (hasSub s "min" = true → ∃ w,
        (pyWords ((pySplit s "min").headD "")).getLast? = some w ∧
        pyint w = Except.ok m) →
      (hasSub s "min" = false → m = 0) →
      _parse_runtime (some s) = Except.ok (h * 60 + m) := by
  refine ⟨rfl, rfl, rfl, rfl, rfl, ?_⟩
  intro s h m hh hh0 hmm hm0
  simp only [_parse_runtime]
  by_cases h1 : hasSub s "h"
  · rw [if_pos h1, hh h1]
    simp only [exceptBindOk]
    by_cases h2 : hasSub s "min"
    · obtain ⟨w, hw, hpw⟩ := hmm h2
      rw [if_pos h2, hw]
      dsimp only
      rw [hpw]
      rfl
    · have hm0' : m = 0 := hm0 (by simpa using h2)
      subst hm0'
      rw [if_neg h2]
      rfl
  · have hh0' : h = 0 := hh0 (by simpa using h1)
    subst hh0'
    by_cases h2 : hasSub s "min"
    · obtain ⟨w, hw, hpw⟩ := hmm h2
      rw [if_neg h1]
      simp only [exceptPureBind]
      rw [if_pos h2, hw]
      dsimp only
      rw [hpw]
      rfl
    · have hm0' : m = 0 := hm0 (by simpa using h2)
      subst hm0'
      rw [if_neg h1]
      simp only [exceptPureBind]
      rw [if_neg h2]
      rfl

/-- C7 (witness): the general decomposition applied at the concrete
input `"3h 7min"`. -/
theorem c7_runtime_formula_witness :
    _parse_runtime (some "3h 7min") = Except.ok 187 :=
  c7_runtime_formula.2.2.2.2.2 "3h 7min" 3 7 (fun _ => rfl)
    (fun hf => absurd hf (by decide))
    (fun _ => ⟨"7", rfl, rfl⟩)
    (fun hf => absurd hf (by decide))

/-- On a well-formed edge, the `parse_cast` loop body appends exactly
what the per-edge rule `castRuleSpec` prescribes. -/
theorem parse_cast_step_spec (acc : List String) (e : JVal)
    (hwe : castEdgeWF e = true) :
    parse_cast_step acc e = Except.ok (acc ++ (castRuleSpec e).toList) := by
  cases e
  case null => exact absurd hwe (by simp [castEdgeWF])
  case bool b => exact absurd hwe (by simp [castEdgeWF])
  case num n => exact absurd hwe (by simp [castEdgeWF])
  case str s => exact absurd hwe (by simp [castEdgeWF])
  case arr items => exact absurd hwe (by simp [castEdgeWF])
  case obj fs =>
    simp only [castEdgeWF] at hwe
    simp only [parse_cast_step, castRuleSpec, pyGet, exceptBindOk]
    split at hwe
    next nfs hnd =>
      simp only [exceptBindOk]
      split at hwe
      next afs hac =>
        rw [hac]
        by_cases hpt : pyTruthy (JVal.obj afs)
        · simp [hpt, exceptBindOk, Option.toList]
        · simp only [hpt, if_false, if_neg hpt, Option.toList]
          simp [hpt]
          rfl
      next a hnomatch =>
        have hpt : pyTruthy ((jLookup nfs "actor").getD (JVal.obj [])) = false := by
          simpa using hwe
        simp [hpt]
        rfl
    next hne => exact absurd hwe (by simp)

/-- The `parse_cast` fold over well-formed edges computes a
`filterMap` of the per-edge rule. -/
theorem parse_cast_go :
    ∀ (edges : List JVal), edges.all castEdgeWF = true → ∀ acc : List String,
      List.foldlM parse_cast_step acc edges =
        Except.ok (acc ++ edges.filterMap castRuleSpec)
  | [], _, acc => by
    simp only [List.foldlM_nil, List.filterMap_nil, List.append_nil]
    rfl
  | e :: es, hwf, acc => by
    simp only [List.all_cons, Bool.and_eq_true] at hwf
    rw [List.foldlM_cons, parse_cast_step_spec acc e hwf.1, exceptBindOk,
      parse_cast_go es hwf.2 _]
    cases h : castRuleSpec e <;>
      simp [List.filterMap_cons, h, Option.toList, List.append_assoc]

/-- C6 (counterexample): the claim "`parse_cast` emits `"Unknown"`
whenever either name is missing" is false on the code: for an edge whose
actor has only a last name, the missing first name defaults to the
truthy string `" "`, so the code emits `"  Smith"` (two spaces), not
`"Unknown"`. -/
theorem c6_counterexample :
    parse_cast [JVal.obj [("node", JVal.obj [("actor",
        JVal.obj [("lastName", JVal.str "Smith")])])]] = Except.ok ["  Smith"] ∧
      ("  Smith" : String) ≠ "Unknown" :=
  ⟨rfl, by decide⟩

/-- C6 (amended): `parse_cast` maps over the edges and skips entirely
every edge whose actor payload is absent or falsy; for each remaining
edge it emits `f"{first} {last}"` where a missing first/last name
defaults to the truthy string `" "`, and emits `"Unknown"` exactly when
one of the two looked-up name values is falsy (present but empty or
null) — not when a name is missing.  Formally, on well-formed edges the
fold equals `filterMap castRuleSpec`. -/
theorem c6_parse_cast_spec (edges : List JVal) (hwf : edges.all castEdgeWF = true) :
    parse_cast edges = Except.ok (edges.filterMap castRuleSpec) := by
  rw [parse_cast, parse_cast_go edges hwf [], List.nil_append]

/-- C6 (witness): the amended theorem applied to the concrete edge list
`castEdgesW` (a complete actor, an empty edge, and an actor with an
empty first name). -/
theorem c6_parse_cast_spec_witness :
    parse_cast castEdgesW = Except.ok ["John Doe", "Unknown"] :=
  c6_parse_cast_spec castEdgesW (by decide)

/-- C9: the `home` route clamps the integer `delta` parameter to
`[0, 6]`: a request with `delta = 10` produces the same rendered output
(day selector, schedule date, film list) as `delta = 6`, and
`delta = -5` the same as `delta = 0`, for every environment and current
date. -/
theorem c9_delta_clamped (theaters : List Theater) (env : Env) (fuel : Nat)
    (today : PyDateTime) :
    home theaters env fuel today 10 = home theaters env fuel today 6 ∧
    home theaters env fuel today (-5) = home theaters env fuel today 0 :=
  ⟨rfl, rfl⟩

/-! ## One-iteration lemmas for the pagination loop -/

theorem loop_step_fetch_error (self : Theater) (env : Env) (date : PyDateTime)
    (fuel page : Nat) (acc : List Showtime) (e : PyErr)
    (hf : fetch_showtimes_page self env date page = Except.error e) :
    getShowtimesLoop self env date (fuel + 1) page acc = (Except.error e, [page]) := by
  simp only [getShowtimesLoop]
  rw [hf]

theorem loop_step_stop (self : Theater) (env : Env) (date : PyDateTime)
    (fuel page : Nat) (acc : List Showtime) (d : JVal)
    (hf : fetch_showtimes_page self env date page = Except.ok d)
    (hs : checkStop d = Except.ok true) :
    getShowtimesLoop self env date (fuel + 1) page acc = (Except.ok acc, [page]) := by
  simp only [getShowtimesLoop]
  rw [hf]
  dsimp only
  rw [hs]

theorem loop_step_last (self : Theater) (env : Env) (date : PyDateTime)
    (fuel page : Nat) (acc : List Showtime) (d : JVal) (L : List Showtime)
    (hf : fetch_showtimes_page self env date page = Except.ok d)
    (hs : checkStop d = Except.ok false)
    (hp : parsePage self d = Except.ok L)
    (hl : isLastPage d = Except.ok true) :
    getShowtimesLoop self env date (fuel + 1) page acc =
      (Except.ok (acc ++ L), [page]) := by
  simp only [getShowtimesLoop]
  rw [hf]
  dsimp only
  rw [hs]
  dsimp only
  rw [hp]
  dsimp only
  rw [hl]

theorem loop_step_continue (self : Theater) (env : Env) (date : PyDateTime)
    (fuel page : Nat) (acc : List Showtime) (d : JVal) (L : List Showtime)
    (hf : fetch_showtimes_page self env date page = Except.ok d)
    (hs : checkStop d = Except.ok false)
    (hp : parsePage self d = Except.ok L)
    (hl : isLastPage d = Except.ok false) :
    getShowtimesLoop self env date (fuel + 1) page acc =
      ((getShowtimesLoop self env date fuel (page + 1) (acc ++ L)).1,
        page :: (getShowtimesLoop self env date fuel (page + 1) (acc ++ L)).2) := by
  simp only [getShowtimesLoop]
  rw [hf]
  dsimp only
  rw [hs]
  dsimp only
  rw [hp]
  dsimp only
  rw [hl]

/-- C1: pagination behavior of `Theater.get_showtimes` for a single
theater and date.
(a) If the page-1 response (fetched with status 200) carries
`message = "no.showtime.error"` or `"next.showtime.on"`, or a truthy
`error` field, the loop returns the empty showtime list after exactly
one fetch call (the fetched-pages trace is `[1]`).
(b) For a response sequence [page 1 of 2, page 2 of 2], exactly pages 1
and 2 are fetched, in that order, and the returned list is page 1's
showtimes followed by page 2's.
(c) Within one movie block the showtime list is the parse of
`dubbed ++ original ++ local`, in that order.
(d) Across movie blocks, a page's showtimes are the concatenation of the
per-block lists in page order. -/
theorem c1_pagination (self : Theater) (env : Env) (date : PyDateTime) :
    (∀ fields : List (String × JVal),
      fetch_showtimes_page self env date 1 = Except.ok (JVal.obj fields) →
      (isStopMsg ((jLookup fields "message").getD JVal.null) ||
        pyTruthy ((jLookup fields "error").getD JVal.null)) = true →
      ∀ fuel, 1 ≤ fuel →
        getShowtimesLoop self env date fuel 1 [] = (Except.ok [], [1])) ∧
    (∀ d1 d2 L1 L2,
      fetch_showtimes_page self env date 1 = Except.ok d1 →
      checkStop d1 = Except.ok false →
      parsePage self d1 = Except.ok L1 →
      paginationNumbers d1 = Except.ok (1, 2) →
      fetch_showtimes_page self env date 2 = Except.ok d2 →
      checkStop d2 = Except.ok false →
      parsePage self d2 = Except.ok L2 →
      paginationNumbers d2 = Except.ok (2, 2) →
      ∀ fuel, 2 ≤ fuel →
        getShowtimesLoop self env date fuel 1 [] =
          (Except.ok (L1 ++ L2), [1, 2])) ∧
    (∀ movie_data mval movie stsObj D O L TD TO TL,
      pyGetItem movie_data "movie" = Except.ok mval →
      parse_movie self mval = Except.ok movie →
      pyGetItem movie_data "showtimes" = Except.ok stsObj →
      pyGet stsObj "dubbed" (JVal.arr []) = Except.ok (JVal.arr D) →
      pyGet stsObj "original" (JVal.arr []) = Except.ok (JVal.arr O) →
      pyGet stsObj "local" (JVal.arr []) = Except.ok (JVal.arr L) →
      D.mapM (parseShowtimeEntry self movie) = Except.ok TD →
      O.mapM (parseShowtimeEntry self movie) = Except.ok TO →
      L.mapM (parseShowtimeEntry self movie) = Except.ok TL →
      parseBlock self movie_data = Except.ok (TD ++ TO ++ TL)) ∧
    (∀ d blocks Ls,
      pyGetItem d "results" = Except.ok (JVal.arr blocks) →
      blocks.mapM (parseBlock self) = Except.ok Ls →
      parsePage self d = Except.ok Ls.flatten) := by
  refine ⟨?_, ?_, ?_, ?_⟩
  · intro fields hf hstop fuel hfuel
    obtain ⟨k, rfl⟩ : ∃ k, fuel = k + 1 := ⟨fuel - 1, by omega⟩
    have hcs : checkStop (JVal.obj fields) = Except.ok true := by
      simp only [checkStop, pyGet, exceptBindOk]
      rw [hstop]
      rfl
    exact loop_step_stop self env date k 1 [] _ hf hcs
  · intro d1 d2 L1 L2 hf1 hs1 hp1 hg1 hf2 hs2 hp2 hg2 fuel hfuel
    obtain ⟨k, rfl⟩ : ∃ k, fuel = k + 2 := ⟨fuel - 2, by omega⟩
    have hl1 : isLastPage d1 = Except.ok false := by
      simp only [isLastPage]
      rw [hg1]
      rfl
    have hl2 : isLastPage d2 = Except.ok true := by
      simp only [isLastPage]
      rw [hg2]
      rfl
    have h2 := loop_step_last self env date k 2 ([] ++ L1) d2 L2 hf2 hs2 hp2 hl2
    rw [loop_step_continue self env date (k + 1) 1 [] d1 L1 hf1 hs1 hp1 hl1, h2]
    simp
  · intro movie_data mval movie stsObj D O L TD TO TL hmv hpm hsts hd ho hl hTD hTO hTL
    simp only [parseBlock]
    rw [hmv]
    simp only [exceptBindOk]
    rw [hpm]
    simp only [exceptBindOk]
    rw [hsts]
    simp only [exceptBindOk]
    rw [hd]
    simp only [exceptBindOk]
    rw [ho]
    simp only [exceptBindOk]
    rw [hl]
    simp only [exceptBindOk, asList, exceptBindOk]
    rw [List.mapM_append, List.mapM_append, hTD, hTO, hTL]
    rfl
  · intro d blocks Ls hres hblocks
    simp only [parsePage]
    rw [hres]
    simp only [exceptBindOk, asList]
    rw [hblocks]
    rfl

/-- C1 (witness): the two-page conjunct applied to the concrete
environment `envW` (the repository's unit-test scenario): pages 1 and 2
are fetched in order and the result is page 1's three showtimes
(dubbed, original, local) followed by page 2's single showtime. -/
theorem c1_pagination_witness :
    getShowtimesLoop theaterW envW dateW 2 1 [] =
      (Except.ok (showtimesW1 ++ showtimesW2), [1, 2]) :=
  (c1_pagination theaterW envW dateW).2.1 pageW1 pageW2 showtimesW1 showtimesW2
    rfl rfl rfl rfl rfl rfl rfl rfl 2 (by omega)

/-- The fetched-pages trace of the pagination loop is always a
contiguous run of page numbers starting at the initial page: no page is
skipped, repeated or retried. -/
theorem loop_trace_range (self : Theater) (env : Env) (date : PyDateTime) :
    ∀ (fuel page : Nat) (acc : List Showtime),
      (getShowtimesLoop self env date fuel page acc).2 =
        List.range' page (getShowtimesLoop self env date fuel page acc).2.length := by
  intro fuel
  induction fuel with
  | zero => intro page acc; simp [getShowtimesLoop]
  | succ k ih =>
    intro page acc
    simp only [getShowtimesLoop]
    rcases hf : fetch_showtimes_page self env date page with e | d
    · simp
    · dsimp only
      rcases hs : checkStop d with e | b
      · simp
      · cases b
        case false =>
          dsimp only
          rcases hp : parsePage self d with e | L
          · simp
          · dsimp only
            rcases hl : isLastPage d with e | bl
            · simp
            · cases bl
              case false =>
                dsimp only
                rw [List.length_cons, List.range'_succ]
                exact congrArg _ (ih (page + 1) (acc ++ L))
              case true => simp
        case true => simp

/-- If a theater's fetch fails, the sequential fetch loop of
`get_all_showtimes` fails with the same error, discarding the showtimes
already collected from earlier theaters. -/
theorem collect_error_aux (env : Env) (fuel : Nat) (date : PyDateTime)
    (t : Theater) (post : List Theater) (e : PyErr)
    (ht : Theater.get_showtimes t env fuel date = Except.error e) :
    ∀ pre : List Theater,
      (∀ t' ∈ pre, ∃ l, Theater.get_showtimes t' env fuel date = Except.ok l) →
      collectShowtimes env fuel date (pre ++ t :: post) = Except.error e
  | [], _ => by
    simp only [List.nil_append, collectShowtimes]
    rw [ht]
    rfl
  | p :: pre', hpre => by
    obtain ⟨l, hl⟩ := hpre p (by simp)
    simp only [List.cons_append, collectShowtimes]
    rw [hl]
    simp only [exceptBindOk, List.append_eq]
    rw [collect_error_aux env fuel date t post e ht pre'
      (fun t' ht' => hpre t' (by simp [ht']))]
    rfl

/-- C8: a non-200 upstream status is an exception that propagates
through the pagination loop and the aggregator.
(a) `fetch_showtimes_page` raises `Exception(f"Error: {status} - {text}")`
whenever the response status is not 200.
(b) A failing fetch aborts the pagination loop immediately with that
error (one fetch on that page, accumulated showtimes discarded).
(c) If one theater's `get_showtimes` fails while all theaters before it
succeed, `get_all_showtimes` fails for the whole request with the same
error — no partial result.
(d) No retry: the loop's fetched-pages trace is a contiguous run of page
numbers (each page fetched at most once, in increasing order). -/
theorem c8_error_propagation :
    (∀ (self : Theater) (env : Env) (date : PyDateTime) (page : Nat),
      (env self.internal_id (strftime_Ymd date) page).status_code ≠ 200 →
      fetch_showtimes_page self env date page =
        Except.error (.exc ("Error: " ++
          toString (env self.internal_id (strftime_Ymd date) page).status_code ++
          " - " ++ (env self.internal_id (strftime_Ymd date) page).text))) ∧
    (∀ (self : Theater) (env : Env) (date : PyDateTime)
        (fuel page : Nat) (acc : List Showtime) (e : PyErr),
      fetch_showtimes_page self env date page = Except.error e → 1 ≤ fuel →
      getShowtimesLoop self env date fuel page acc = (Except.error e, [page])) ∧
    (∀ (pre post : List Theater) (t : Theater) (env : Env)
        (fuel : Nat) (date : PyDateTime) (e : PyErr),
      (∀ t' ∈ pre, ∃ l, Theater.get_showtimes t' env fuel date = Except.ok l) →
      Theater.get_showtimes t env fuel date = Except.error e →
      get_all_showtimes (pre ++ t :: post) env fuel date = Except.error e) ∧
    (∀ (self : Theater) (env : Env) (date : PyDateTime) (fuel page : Nat)
        (acc : List Showtime),
      (getShowtimesLoop self env date fuel page acc).2 =
        List.range' page (getShowtimesLoop self env date fuel page acc).2.length) := by
  refine ⟨?_, ?_, ?_, loop_trace_range⟩
  · intro self env date page h
    simp only [fetch_showtimes_page]
    rw [if_pos h]
  · intro self env date fuel page acc e hf hfuel
    obtain ⟨k, rfl⟩ : ∃ k, fuel = k + 1 := ⟨fuel - 1, by omega⟩
    exact loop_step_fetch_error self env date k page acc e hf
  · intro pre post t env fuel date e hpre ht
    simp only [get_all_showtimes]
    rw [collect_error_aux env fuel date t post e ht pre hpre]
    rfl

/-- C8 (witness): with an environment answering HTTP 500, the whole
aggregation fails with the propagated exception. -/
theorem c8_error_propagation_witness :
    get_all_showtimes [theaterW] envErrW 1 dateW =
      Except.error (.exc "Error: 500 - oops") :=
  c8_error_propagation.2.2.1 [] [] theaterW envErrW 1 dateW
    (.exc "Error: 500 - oops")
    (fun t' ht' => absurd ht' (List.not_mem_nil t')) rfl


theorem hasName_iff (se : List (String × List String)) (n : String) :
    hasName se n = true ↔ ∃ q ∈ se, q.1 = n := by
  simp [hasName, List.any_eq_true]

theorem hasName_find?_none (se : List (String × List String)) (n : String)
    (h : hasName se n = false) : List.find? (fun p => p.1 == n) se = none := by
  rw [List.find?_eq_none]
  intro x hx hpx
  have : hasName se n = true := (hasName_iff se n).mpr ⟨x, hx, by simpa using hpx⟩
  rw [this] at h
  exact Bool.noConfusion h

theorem seLookup_addSeance (se : List (String × List String)) (nm n time : String) :
    seLookup (addSeance se nm time) n =
      if nm = n then some ((seLookup se n).getD [] ++ [time])
      else seLookup se n := by
  have hkey : ∀ q : String × List String,
      ((fun p : String × List String => p.1 == n) ∘
        (fun p : String × List String => if p.1 = nm then (p.1, p.2 ++ [time]) else p)) q
        = (q.1 == n) := by
    intro q
    by_cases hq : q.1 = nm <;> simp [hq]
  have hkeyf : ((fun p : String × List String => p.1 == n) ∘
      (fun p : String × List String => if p.1 = nm then (p.1, p.2 ++ [time]) else p))
      = (fun q : String × List String => q.1 == n) := funext hkey
  by_cases h : nm = n
  · subst h
    rw [if_pos rfl]
    simp only [addSeance, seLookup]
    by_cases hhn : hasName se nm
    · rw [if_pos hhn, List.find?_map, hkeyf]
      rcases hfind : List.find? (fun q => q.1 == nm) se with _ | q
      · -- contradicts hasName
        exfalso
        obtain ⟨q, hq, hq1⟩ := (hasName_iff se nm).mp hhn
        rw [List.find?_eq_none] at hfind
        exact hfind q hq (by simpa using hq1)
      · have hq1 : q.1 = nm := by simpa using List.find?_some hfind
        simp [hfind, hq1, Option.map]
    · rw [if_neg hhn, List.map_append, List.find?_append, List.find?_map, hkeyf,
        hasName_find?_none se nm (by simpa using hhn)]
      simp
  · rw [if_neg h]
    simp only [addSeance, seLookup]
    have hense : ∀ (ens : List (String × List String)),
        List.find? (fun q => q.1 == n) ens = List.find? (fun q => q.1 == n) se →
        (List.find? (fun p => p.1 == n)
          (ens.map (fun p => if p.1 = nm then (p.1, p.2 ++ [time]) else p))).map
            (fun p => p.2) =
          (List.find? (fun p => p.1 == n) se).map (fun p => p.2) := by
      intro ens hens
      rw [List.find?_map, hkeyf, hens]
      rcases hfind : List.find? (fun q => q.1 == n) se with _ | q
      · simp [hfind]
      · have hq1 : q.1 = n := by simpa using List.find?_some hfind
        have hqnm : ¬(q.1 = nm) := by rw [hq1]; exact fun hh => h hh.symm
        simp [hfind, Option.map, hqnm]
    by_cases hhn : hasName se nm
    · rw [if_pos hhn]
      exact hense se rfl
    · rw [if_neg hhn]
      refine hense (se ++ [(nm, [])]) ?_
      rw [List.find?_append]
      have : List.find? (fun q : String × List String => q.1 == n) [(nm, [])] = none := by
        have hb : (nm == n) = false := by
          simpa using h
        simp [List.find?_cons, hb]
      rw [this]
      simp

theorem hasTitle_iff (data : List AggEntry) (t : String) :
    hasTitle data t = true ↔ t ∈ titlesOf data := by
  rw [hasTitle, List.any_eq_true, titlesOf]
  constructor
  · rintro ⟨e, he, hbe⟩
    exact List.mem_map.mpr ⟨e, he, by simpa using hbe⟩
  · intro hm
    obtain ⟨e, he, hte⟩ := List.mem_map.mp hm
    exact ⟨e, he, by simpa using hte⟩

theorem hasTitle_find?_none (data : List AggEntry) (t : String)
    (h : hasTitle data t = false) :
    List.find? (fun e => e.title == t) data = none := by
  rw [List.find?_eq_none]
  intro x hx hpx
  have : hasTitle data t = true := by
    simp only [hasTitle, List.any_eq_true]
    exact ⟨x, hx, hpx⟩
  rw [this] at h
  exact Bool.noConfusion h

set_option maxRecDepth 4000

theorem entryFor_aggStep_eq (data : List AggEntry) (s : Showtime) (t : String) :
    entryFor (aggStep data s) t =
      if s.movie.title = t then
        some (
          { (entryFor data t).getD (mkEntry s.movie) with
            seances := addSeance ((entryFor data t).getD (mkEntry s.movie)).seances
              s.theater.name (formatHM s.start_at) })
      else entryFor data t := by
  have hkeyf : ((fun e : AggEntry => e.title == t) ∘
      (fun e : AggEntry => if e.title = s.movie.title then
        { e with seances := addSeance e.seances s.theater.name (formatHM s.start_at) }
      else e)) = (fun e : AggEntry => e.title == t) := by
    funext e
    by_cases he : e.title = s.movie.title <;> simp [Function.comp, he]
  by_cases ht : s.movie.title = t
  · subst ht
    rw [if_pos rfl]
    by_cases hht : hasTitle data s.movie.title
    · simp only [aggStep, entryFor, if_pos hht, List.find?_map, hkeyf]
      rcases hfind : List.find? (fun e => e.title == s.movie.title) data with _ | e0
      · exfalso
        rw [List.find?_eq_none] at hfind
        rw [hasTitle_iff, titlesOf, List.mem_map] at hht
        obtain ⟨e, he, hte⟩ := hht
        exact hfind e he (by simp [hte])
      · have he0 : e0.title = s.movie.title := by simpa using List.find?_some hfind
        simp [hfind, Option.map, he0]
    · have hnone := hasTitle_find?_none data s.movie.title (by simpa using hht)
      simp only [aggStep, entryFor, if_neg hht, List.map_append, List.find?_append,
        List.find?_map, hkeyf, hnone]
      simp [List.find?_cons, mkEntry]
  · rw [if_neg ht]
    have hens : ∀ ens : List AggEntry,
        List.find? (fun e => e.title == t) ens =
          List.find? (fun e => e.title == t) data →
      entryFor (ens.map (fun e => if e.title = s.movie.title then
        { e with seances := addSeance e.seances s.theater.name (formatHM s.start_at) }
      else e)) t = entryFor data t := by
      intro ens hens
      simp only [entryFor, List.find?_map, hkeyf, hens]
      rcases hfind : List.find? (fun e => e.title == t) data with _ | e0
      · simp [hfind]
      · have he0 : e0.title = t := by simpa using List.find?_some hfind
        have hne : ¬(e0.title = s.movie.title) := by
          rw [he0]; exact fun hh => ht hh.symm
        simp [hfind, Option.map, hne]
    simp only [aggStep]
    by_cases hht : hasTitle data s.movie.title
    · rw [if_pos hht]
      exact hens data rfl
    · rw [if_neg hht]
      refine hens (data ++ [mkEntry s.movie]) ?_
      rw [List.find?_append]
      have hsg : List.find? (fun e : AggEntry => e.title == t) [mkEntry s.movie] = none := by
        have hb : ((mkEntry s.movie).title == t) = false := by
          simp only [mkEntry]
          simpa using ht
        simp [List.find?_cons, hb]
      rw [hsg]
      simp

theorem obsTimes_aggStep (data : List AggEntry) (s : Showtime) (t n : String) :
    obsTimes (aggStep data s) t n =
      if s.movie.title = t ∧ s.theater.name = n then
        some ((obsTimes data t n).getD [] ++ [formatHM s.start_at])
      else obsTimes data t n := by
  rw [obsTimes, entryFor_aggStep_eq]
  by_cases ht : s.movie.title = t
  · rw [if_pos ht]
    dsimp only
    rw [seLookup_addSeance]
    by_cases hn : s.theater.name = n
    · rw [if_pos hn, if_pos ⟨ht, hn⟩]
      cases he : entryFor data t
      · simp [obsTimes, he, mkEntry, seLookup]
      · simp [obsTimes, he]
    · rw [if_neg hn, if_neg (fun hc => hn hc.2)]
      cases he : entryFor data t
      · simp [obsTimes, he, mkEntry, seLookup]
      · simp [obsTimes, he]
  · rw [if_neg ht, if_neg (fun hc => ht hc.1)]
    rw [obsTimes]

theorem combineOpt_cons (o : Option (List String)) (x : String) (l : List String) :
    combineOpt o (x :: l) = combineOpt (some ((o.getD []) ++ [x])) l := by
  cases o <;> simp [combineOpt, List.append_assoc]

theorem timesFor_cons_pos (s : Showtime) (S : List Showtime) (t n : String)
    (h1 : s.movie.title = t) (h2 : s.theater.name = n) :
    timesFor (s :: S) t n = formatHM s.start_at :: timesFor S t n := by
  simp [timesFor, List.filter_cons, h1, h2]

theorem timesFor_cons_neg (s : Showtime) (S : List Showtime) (t n : String)
    (h : ¬(s.movie.title = t ∧ s.theater.name = n)) :
    timesFor (s :: S) t n = timesFor S t n := by
  have hb : (s.movie.title == t && s.theater.name == n) = false := by
    rcases not_and_or.mp h with h' | h' <;> simp [h']
  simp [timesFor, List.filter_cons, hb]

theorem obsTimes_foldl (t n : String) :
    ∀ (S : List Showtime) (data : List AggEntry),
      obsTimes (S.foldl aggStep data) t n =
        combineOpt (obsTimes data t n) (timesFor S t n)
  | [], data => by
    rw [List.foldl_nil]
    have : timesFor [] t n = [] := by simp [timesFor]
    rw [this]
    cases h : obsTimes data t n <;> simp [combineOpt]
  | s :: S', data => by
    rw [List.foldl_cons, obsTimes_foldl t n S' (aggStep data s), obsTimes_aggStep]
    by_cases hc : s.movie.title = t ∧ s.theater.name = n
    · rw [if_pos hc, timesFor_cons_pos s S' t n hc.1 hc.2, combineOpt_cons]
    · rw [if_neg hc, timesFor_cons_neg s S' t n hc]

theorem titlesOf_aggStep (data : List AggEntry) (s : Showtime) :
    titlesOf (aggStep data s) =
      if hasTitle data s.movie.title then titlesOf data
      else titlesOf data ++ [s.movie.title] := by
  have hmap : ∀ l : List AggEntry,
      titlesOf (l.map (fun e => if e.title = s.movie.title then
        { e with seances := addSeance e.seances s.theater.name (formatHM s.start_at) }
      else e)) = titlesOf l := by
    intro l
    simp only [titlesOf, List.map_map]
    refine List.map_congr_left ?_
    intro e he
    by_cases h : e.title = s.movie.title <;> simp [Function.comp, h]
  by_cases hht : hasTitle data s.movie.title
  · rw [if_pos hht]
    simp only [aggStep, if_pos hht]
    exact hmap data
  · rw [if_neg hht]
    simp only [aggStep, if_neg hht]
    rw [hmap (data ++ [mkEntry s.movie])]
    simp [titlesOf, mkEntry]

theorem titlesOf_nodup_aggStep (data : List AggEntry) (s : Showtime)
    (h : (titlesOf data).Nodup) : (titlesOf (aggStep data s)).Nodup := by
  rw [titlesOf_aggStep]
  by_cases hht : hasTitle data s.movie.title
  · rwa [if_pos hht]
  · rw [if_neg hht, List.nodup_append]
    refine ⟨h, List.nodup_singleton _, ?_⟩
    intro a ha hb
    rw [List.mem_singleton] at hb
    subst hb
    have := (hasTitle_iff data s.movie.title).mpr ha
    rw [this] at hht
    exact hht rfl

theorem titlesOf_foldl_nodup :
    ∀ (S : List Showtime) (data : List AggEntry),
      (titlesOf data).Nodup → (titlesOf (S.foldl aggStep data)).Nodup
  | [], _, h => h
  | s :: S', data, h =>
    titlesOf_foldl_nodup S' (aggStep data s) (titlesOf_nodup_aggStep data s h)

theorem mem_titlesOf_foldl (t : String) :
    ∀ (S : List Showtime) (data : List AggEntry),
      (t ∈ titlesOf (S.foldl aggStep data)) ↔
        t ∈ titlesOf data ∨ t ∈ S.map (fun s => s.movie.title)
  | [], data => by simp
  | s :: S', data => by
    rw [List.foldl_cons, mem_titlesOf_foldl t S' (aggStep data s), titlesOf_aggStep]
    by_cases hht : hasTitle data s.movie.title
    · rw [if_pos hht]
      simp only [List.map_cons, List.mem_cons]
      constructor
      · rintro (h | h)
        · exact Or.inl h
        · exact Or.inr (Or.inr h)
      · rintro (h | h | h)
        · exact Or.inl h
        · subst h
          exact Or.inl ((hasTitle_iff data _).mp hht)
        · exact Or.inr h
    · rw [if_neg hht]
      simp only [List.mem_append, List.mem_singleton, List.map_cons, List.mem_cons]
      tauto

theorem titlesOf_foldl_firstSeen :
    ∀ (S : List Showtime) (data : List AggEntry),
      titlesOf (S.foldl aggStep data) =
        (S.map (fun s => s.movie.title)).foldl
          (fun acc t => if t ∈ acc then acc else acc ++ [t]) (titlesOf data)
  | [], data => by simp
  | s :: S', data => by
    rw [List.foldl_cons, List.map_cons, List.foldl_cons,
      titlesOf_foldl_firstSeen S' (aggStep data s), titlesOf_aggStep]
    congr 1
    by_cases hht : hasTitle data s.movie.title
    · rw [if_pos hht, if_pos ((hasTitle_iff data _).mp hht)]
    · rw [if_neg hht, if_neg (fun hm => hht ((hasTitle_iff data _).mpr hm))]

theorem mem_insertDesc (x a : AggEntry) :
    ∀ l : List AggEntry, a ∈ insertDesc x l ↔ a = x ∨ a ∈ l
  | [] => by simp [insertDesc]
  | y :: ys => by
    simp only [insertDesc]
    by_cases h : x.wantToSee ≤ y.wantToSee
    · rw [if_pos h]
      simp only [List.mem_cons, mem_insertDesc x a ys]
      tauto
    · rw [if_neg h]
      simp only [List.mem_cons]

theorem countP_insertDesc (p : AggEntry → Bool) (x : AggEntry) :
    ∀ l : List AggEntry,
      (insertDesc x l).countP p = l.countP p + (if p x then 1 else 0)
  | [] => by simp [insertDesc, List.countP_cons]
  | y :: ys => by
    simp only [insertDesc]
    by_cases h : x.wantToSee ≤ y.wantToSee
    · rw [if_pos h, List.countP_cons, List.countP_cons, countP_insertDesc p x ys]
      omega
    · rw [if_neg h, List.countP_cons, List.countP_cons]

theorem pairwise_insertDesc (x : AggEntry) :
    ∀ l : List AggEntry,
      l.Pairwise (fun a b => b.wantToSee ≤ a.wantToSee) →
      (insertDesc x l).Pairwise (fun a b => b.wantToSee ≤ a.wantToSee)
  | [], _ => by simp [insertDesc]
  | y :: ys, h => by
    rw [List.pairwise_cons] at h
    simp only [insertDesc]
    by_cases hle : x.wantToSee ≤ y.wantToSee
    · rw [if_pos hle, List.pairwise_cons]
      refine ⟨?_, pairwise_insertDesc x ys h.2⟩
      intro a ha
      rcases (mem_insertDesc x a ys).mp ha with rfl | ha'
      · exact hle
      · exact h.1 a ha'
    · rw [if_neg hle, List.pairwise_cons]
      refine ⟨?_, List.pairwise_cons.mpr h⟩
      intro a ha
      rcases List.mem_cons.mp ha with rfl | ha'
      · omega
      · have := h.1 a ha'
        omega

theorem filter_insertDesc_pos (k : Int) (x : AggEntry) (hx : x.wantToSee = k) :
    ∀ l : List AggEntry,
      l.Pairwise (fun a b => b.wantToSee ≤ a.wantToSee) →
      (insertDesc x l).filter (fun e => e.wantToSee == k) =
        l.filter (fun e => e.wantToSee == k) ++ [x]
  | [], _ => by simp [insertDesc, List.filter_cons, hx]
  | y :: ys, h => by
    rw [List.pairwise_cons] at h
    simp only [insertDesc]
    by_cases hle : x.wantToSee ≤ y.wantToSee
    · rw [if_pos hle, List.filter_cons, List.filter_cons,
        filter_insertDesc_pos k x hx ys h.2]
      by_cases hyk : (y.wantToSee == k) = true
      · rw [hyk]
        simp
      · rw [Bool.eq_false_iff.mpr hyk]
        simp
    · rw [if_neg hle, List.filter_cons]
      have hxk : (x.wantToSee == k) = true := by simpa using hx
      rw [hxk]
      have hnil : (y :: ys).filter (fun e => e.wantToSee == k) = [] := by
        rw [List.filter_eq_nil_iff]
        intro a ha
        have hak : a.wantToSee < k := by
          rcases List.mem_cons.mp ha with rfl | ha'
          · omega
          · have := h.1 a ha'
            omega
        simp only [beq_iff_eq]
        omega
      rw [hnil]
      simp [hnil]

theorem filter_insertDesc_neg (k : Int) (x : AggEntry) (hx : ¬(x.wantToSee = k)) :
    ∀ l : List AggEntry,
      (insertDesc x l).filter (fun e => e.wantToSee == k) =
        l.filter (fun e => e.wantToSee == k)
  | [] => by simp [insertDesc, List.filter_cons, hx]
  | y :: ys => by
    simp only [insertDesc]
    by_cases hle : x.wantToSee ≤ y.wantToSee
    · rw [if_pos hle, List.filter_cons, List.filter_cons,
        filter_insertDesc_neg k x hx ys]
    · rw [if_neg hle, List.filter_cons, List.filter_cons,
        Bool.eq_false_iff.mpr (by simpa using hx : ¬((x.wantToSee == k) = true))]
      simp

theorem sortDesc_foldl_spec :
    ∀ (l acc : List AggEntry),
      acc.Pairwise (fun a b => b.wantToSee ≤ a.wantToSee) →
      (l.foldl (fun acc x => insertDesc x acc) acc).Pairwise
          (fun a b => b.wantToSee ≤ a.wantToSee) ∧
        ∀ k : Int,
          (l.foldl (fun acc x => insertDesc x acc) acc).filter
              (fun e => e.wantToSee == k) =
            acc.filter (fun e => e.wantToSee == k) ++
              l.filter (fun e => e.wantToSee == k)
  | [], acc, h => ⟨h, fun k => by simp⟩
  | x :: l', acc, h => by
    rw [List.foldl_cons]
    obtain ⟨hs, hf⟩ := sortDesc_foldl_spec l' (insertDesc x acc)
      (pairwise_insertDesc x acc h)
    refine ⟨hs, fun k => ?_⟩
    rw [hf k, List.filter_cons]
    by_cases hxk : x.wantToSee = k
    · rw [filter_insertDesc_pos k x hxk acc h,
        (by simpa using hxk : (x.wantToSee == k) = true)]
      simp
    · rw [filter_insertDesc_neg k x hxk acc,
        Bool.eq_false_iff.mpr (by simpa using hxk : ¬((x.wantToSee == k) = true))]
      simp

theorem mem_sortDesc_foldl :
    ∀ (l acc : List AggEntry) (a : AggEntry),
      a ∈ l.foldl (fun acc x => insertDesc x acc) acc ↔ a ∈ acc ∨ a ∈ l
  | [], acc, a => by simp
  | x :: l', acc, a => by
    rw [List.foldl_cons, mem_sortDesc_foldl l' (insertDesc x acc) a]
    rw [mem_insertDesc x a acc]
    simp only [List.mem_cons]
    tauto

theorem countP_sortDesc_foldl (p : AggEntry → Bool) :
    ∀ (l acc : List AggEntry),
      (l.foldl (fun acc x => insertDesc x acc) acc).countP p =
        acc.countP p + l.countP p
  | [], acc => by simp
  | x :: l', acc => by
    rw [List.foldl_cons, countP_sortDesc_foldl p l' (insertDesc x acc),
      countP_insertDesc p x acc, List.countP_cons]
    omega

theorem addSeance_ne_nil (se : List (String × List String)) (n time : String) :
    addSeance se n time ≠ [] := by
  simp only [addSeance]
  intro hmap
  rw [List.map_eq_nil_iff] at hmap
  by_cases hhn : hasName se n
  · rw [if_pos hhn] at hmap
    subst hmap
    simp [hasName] at hhn
  · rw [if_neg hhn] at hmap
    exact absurd hmap (by simp)

theorem addSeance_mem_ne_nil (se : List (String × List String)) (n time : String)
    (h : ∀ q ∈ se, q.2 ≠ []) : ∀ q ∈ addSeance se n time, q.2 ≠ [] := by
  intro q hq
  simp only [addSeance, List.mem_map] at hq
  obtain ⟨q0, hq0, rfl⟩ := hq
  have hq0' : q0 ∈ se ∨ q0 = (n, ([] : List String)) := by
    by_cases hhn : hasName se n
    · rw [if_pos hhn] at hq0
      exact Or.inl hq0
    · rw [if_neg hhn] at hq0
      rcases List.mem_append.mp hq0 with h' | h'
      · exact Or.inl h'
      · exact Or.inr (List.mem_singleton.mp h')
  by_cases hk : q0.1 = n
  · rw [if_pos hk]
    simp
  · rw [if_neg hk]
    rcases hq0' with h' | h'
    · exact h q0 h'
    · exact absurd (by rw [h'] : q0.1 = n) hk

theorem seances_invariant_aggStep (data : List AggEntry) (s : Showtime)
    (h : ∀ e ∈ data, e.seances ≠ [] ∧ ∀ q ∈ e.seances, q.2 ≠ []) :
    ∀ e ∈ aggStep data s, e.seances ≠ [] ∧ ∀ q ∈ e.seances, q.2 ≠ [] := by
  intro e he
  simp only [aggStep, List.mem_map] at he
  obtain ⟨e0, he0, rfl⟩ := he
  have he0' : e0 ∈ data ∨ e0 = mkEntry s.movie := by
    by_cases hht : hasTitle data s.movie.title
    · rw [if_pos hht] at he0
      exact Or.inl he0
    · rw [if_neg hht] at he0
      rcases List.mem_append.mp he0 with h' | h'
      · exact Or.inl h'
      · exact Or.inr (List.mem_singleton.mp h')
  by_cases hte : e0.title = s.movie.title
  · rw [if_pos hte]
    refine ⟨addSeance_ne_nil _ _ _, ?_⟩
    refine addSeance_mem_ne_nil e0.seances s.theater.name (formatHM s.start_at) ?_
    rcases he0' with h' | h'
    · exact (h e0 h').2
    · rw [h']
      intro q hq
      simp [mkEntry] at hq
  · rw [if_neg hte]
    rcases he0' with h' | h'
    · exact h e0 h'
    · exact absurd (by rw [h']; rfl : e0.title = s.movie.title) hte

theorem seances_invariant_foldl :
    ∀ (S : List Showtime) (data : List AggEntry),
      (∀ e ∈ data, e.seances ≠ [] ∧ ∀ q ∈ e.seances, q.2 ≠ []) →
      ∀ e ∈ S.foldl aggStep data, e.seances ≠ [] ∧ ∀ q ∈ e.seances, q.2 ≠ []
  | [], _, h => h
  | s :: S', data, h =>
    seances_invariant_foldl S' (aggStep data s) (seances_invariant_aggStep data s h)

/-- C2: in the output of `get_all_showtimes`, for every title occurring
in the concatenated showtime list there is exactly one aggregated entry
with that title, and for every theater name its key in that entry's
`seances` mapping holds exactly the `"HH:MM"`-formatted start times of
that title's showtimes at that theater, in arrival (input) order — the
key being present exactly when that list is non-empty.  In particular,
two showtimes of one title from different theaters merge into one entry
with one key per theater, and several showtimes at one theater keep
arrival order. -/
theorem c2_aggregation_merge (S : List Showtime) (t : String)
    (ht : t ∈ S.map (fun s => s.movie.title)) :
    (get_all_showtimes_from S).countP (fun e => e.title == t) = 1 ∧
    ∀ e ∈ get_all_showtimes_from S, e.title = t →
      ∀ n : String, seLookup e.seances n =
        if timesFor S t n = [] then none else some (timesFor S t n) := by
  have hnodup : (titlesOf (aggEntriesOf S)).Nodup :=
    titlesOf_foldl_nodup S [] (by simp [titlesOf])
  have htmem : t ∈ titlesOf (aggEntriesOf S) :=
    (mem_titlesOf_foldl t S []).mpr (Or.inr ht)
  constructor
  · have hc1 : (get_all_showtimes_from S).countP (fun e => e.title == t) =
        (aggEntriesOf S).countP (fun e => e.title == t) := by
      rw [get_all_showtimes_from, sortDesc,
        countP_sortDesc_foldl (fun e => e.title == t) (aggEntriesOf S) []]
      simp
    rw [hc1]
    have hc2 : (aggEntriesOf S).countP (fun e => e.title == t) =
        (titlesOf (aggEntriesOf S)).count t := by
      rw [titlesOf, List.count_eq_countP, List.countP_map]
      rfl
    rw [hc2]
    exact List.count_eq_one_of_mem hnodup htmem
  · intro e he het n
    have hemem : e ∈ aggEntriesOf S := by
      have := (mem_sortDesc_foldl (aggEntriesOf S) [] e).mp he
      simpa using this
    have hobse : obsTimes (aggEntriesOf S) t n = seLookup e.seances n := by
      rw [obsTimes]
      rcases hfind : entryFor (aggEntriesOf S) t with _ | e1
      · exfalso
        rw [entryFor, List.find?_eq_none] at hfind
        exact hfind e hemem (by simpa using het)
      · have he1mem : e1 ∈ aggEntriesOf S := List.mem_of_find?_eq_some hfind
        have he1t : e1.title = t := by simpa using List.find?_some hfind
        have : e1 = e :=
          List.inj_on_of_nodup_map hnodup he1mem hemem (by rw [he1t, het])
        rw [this]
    rw [← hobse, aggEntriesOf, obsTimes_foldl]
    have hobsnil : obsTimes [] t n = none := rfl
    rw [hobsnil]
    rcases htf : timesFor S t n with _ | ⟨x, l⟩
    · simp [combineOpt]
    · simp [combineOpt]

/-- C3: `get_all_showtimes` returns its aggregated entries sorted by
`wantToSee` descending; for every score value the subsequence of entries
with that score is unchanged from the pre-sort dict order; and the
pre-sort dict order lists titles in first-encounter order of the
concatenated showtime list.  Together: ties keep first-seen order. -/
theorem c3_sort_order (S : List Showtime) :
    (get_all_showtimes_from S).Pairwise (fun a b => b.wantToSee ≤ a.wantToSee) ∧
    (∀ k : Int, (get_all_showtimes_from S).filter (fun e => e.wantToSee == k) =
      (aggEntriesOf S).filter (fun e => e.wantToSee == k)) ∧
    titlesOf (aggEntriesOf S) = firstSeenTitles (S.map (fun s => s.movie.title)) := by
  obtain ⟨hs, hf⟩ := sortDesc_foldl_spec (aggEntriesOf S) [] (by simp)
  refine ⟨hs, fun k => ?_, ?_⟩
  · rw [get_all_showtimes_from, sortDesc, hf k]
    simp
  · rw [aggEntriesOf, titlesOf_foldl_firstSeen S [], firstSeenTitles]
    rfl

/-- C10: every aggregated entry returned by `get_all_showtimes` has a
non-empty `seances` mapping, and every per-theater time list inside it
is non-empty: entries and per-theater sub-lists exist only when
witnessed by at least one showtime. -/
theorem c10_nonempty_invariant (S : List Showtime) :
    ∀ e ∈ get_all_showtimes_from S, e.seances ≠ [] ∧ ∀ q ∈ e.seances, q.2 ≠ [] := by
  intro e he
  have hmem : e ∈ aggEntriesOf S := by
    have := (mem_sortDesc_foldl (aggEntriesOf S) [] e).mp he
    simpa using this
  exact seances_invariant_foldl S [] (by simp) e hmem

/-- C2 (witness): the aggregation theorem applied to the concrete
showtime list `aggShowtimesW` (one title at two theaters, twice at
theater `A`). -/
theorem c2_aggregation_merge_witness :
    (get_all_showtimes_from aggShowtimesW).countP
        (fun e => e.title == "Test Movie") = 1 ∧
    ∀ e ∈ get_all_showtimes_from aggShowtimesW, e.title = "Test Movie" →
      ∀ n : String, seLookup e.seances n =
        if timesFor aggShowtimesW "Test Movie" n = [] then none
        else some (timesFor aggShowtimesW "Test Movie" n) :=
  c2_aggregation_merge aggShowtimesW "Test Movie" (by decide)

/-- C10 (witness): the invariant applied to the first entry computed
from `aggShowtimesW`. -/
theorem c10_nonempty_invariant_witness :
    entryWB.seances ≠ [] ∧ ∀ q ∈ entryWB.seances, q.2 ≠ [] :=
  c10_nonempty_invariant aggShowtimesW entryWB (by decide)
